import Mathlib

/-!
Priority branching propagator.

A shallow embedding of `src/priority_branching_propagator.hpp`
(class `CaDiCaL::PriorityBranchingPropagator`) together with theorems about
its loader, its decision callback and its decision-level bookkeeping.

Modelling conventions:

* `std::vector<int>` is `List Int`, `std::vector<size_t>` is `List Nat`,
  `std::unordered_set<int>` is `Finset Int`, `size_t` indices are `Nat`
  (no operation of the class can wrap an index: every increment is guarded
  by `branch_index < branch_on_list.size()`).
* a `std::string` is a `List Char`; the file system is an `Option (List Char)`
  (`none`: the file cannot be opened, `some text`: its contents).
* text written to `std::cerr` is returned as a list of `Diagnostic`s; text
  written to `std::cout` under `verbose` is not modelled (it does not touch
  the state).
-/

namespace CaDiCaL

/-! ## Data model -/

/-- The C library `abs` on `int`.  (`abs(INT_MIN)` is undefined in C; here it is
the mathematical absolute value.) -/
def abs (x : Int) : Int := if x < 0 then -x else x

/-- The private data members of `PriorityBranchingPropagator`. -/
structure PriorityBranchingPropagator where
  /-- Priority branching variable list. -/
  branch_on_list : List Int
  /-- Current index. -/
  branch_index : Nat
  /-- Set of assigned variables. -/
  assigned_vars : Finset Int
  /-- Decision stack for backtracking. -/
  decision_stack : List Nat
  /-- Verbose output flag. -/
  verbose : Bool
deriving DecidableEq

/-- The constructor `PriorityBranchingPropagator(bool verbose)`: `branch_index(0)`,
all containers default-constructed (empty). -/
def PriorityBranchingPropagator.new (verbose : Bool) : PriorityBranchingPropagator :=
  { branch_on_list := [], branch_index := 0, assigned_vars := ∅,
    decision_stack := [], verbose := verbose }

/-- What the class writes to `std::cerr`. -/
inductive Diagnostic where
  /-- `Error: Cannot open file '<filename>'`. -/
  | cannot_open : Diagnostic
  /-- `Warning: Invalid integer at line <line_num>: '<line>'`. -/
  | invalid_integer (line_num : Nat) (line : List Char) : Diagnostic
  /-- `Warning: Variable 0 is invalid at line <line_num>`. -/
  | variable_zero (line_num : Nat) : Diagnostic
deriving DecidableEq, Repr

/-- A diagnostic is a warning when its text starts with `Warning:`. -/
def Diagnostic.is_warning : Diagnostic → Bool
  | .cannot_open => false
  | .invalid_integer _ _ => true
  | .variable_zero _ => true

/-! ## The loader -/

/-- Membership in the character set `" \t\r\n"` of the two `find_*_not_of` calls. -/
def in_trim_set (c : Char) : Bool :=
  c = ' ' || c = '\t' || c = '\r' || c = '\n'

/-- `line.find_first_not_of(" \t\r\n")`; `none` is `std::string::npos`. -/
def find_first_not_of : List Char → Option Nat
  | [] => none
  | c :: cs =>
    if in_trim_set c then (find_first_not_of cs).map (· + 1) else some 0

/-- `line.find_last_not_of(" \t\r\n")`; `none` is `std::string::npos`. -/
def find_last_not_of : List Char → Option Nat
  | [] => none
  | c :: cs =>
    match find_last_not_of cs with
    | some i => some (i + 1)
    | none => if in_trim_set c then none else some 0

/-- `line.substr(pos, len)` for `pos <= line.size()`. -/
def substr (line : List Char) (pos len : Nat) : List Char :=
  (line.drop pos).take len

/-- `std::isspace` in the "C" locale: what `operator>>` skips before a number. -/
def isspace (c : Char) : Bool :=
  c = ' ' || c = '\t' || c = '\n' || c = Char.ofNat 11 || c = Char.ofNat 12 || c = '\r'

/-- Decimal digit test used by the number extraction. -/
def isdigit (c : Char) : Bool := decide ('0' ≤ c) && decide (c ≤ '9')

/-- Largest value of `int`. -/
def INT_MAX : Int := 2147483647

/-- Smallest value of `int`. -/
def INT_MIN : Int := -2147483648

/-- Value of a run of decimal digits, most significant first. -/
def digits_value (ds : List Char) : Nat :=
  ds.foldl (fun acc c => 10 * acc + (c.toNat - '0'.toNat)) 0

/-- An optional sign in front of a number: whether it is `-`, and the text after
the sign. -/
def split_sign (t : List Char) : Bool × List Char :=
  match t with
  | '-' :: r => (true, r)
  | '+' :: r => (false, r)
  | r => (false, r)

/-- The extraction `iss >> var` on a fresh `std::istringstream iss(line)` with
`int var` (decimal base, "C" locale): skip leading white space, read an optional
sign, then the longest run of decimal digits; whatever follows stays unread.
`some v`: the stream is good afterwards and `var == v`.  `none`: `failbit` is
set, which happens when there is no digit or the value does not fit in `int`. -/
def extract_int (line : List Char) : Option Int :=
  let rest := line.dropWhile isspace
  let signed := split_sign rest
  let ds := signed.2.takeWhile isdigit
  if ds = [] then none
  else
    let v : Int := if signed.1 then -(digits_value ds : Int) else (digits_value ds : Int)
    if INT_MIN ≤ v ∧ v ≤ INT_MAX then some v else none

/-- Local variables of the line loop of `load_branch_list_from_file`. -/
structure LoadLoop where
  /-- The list being filled. -/
  branch_on_list : List Int
  /-- Number of the line last read. -/
  line_num : Nat
  /-- What has been written to `std::cerr`. -/
  cerr : List Diagnostic
deriving DecidableEq

/-- One iteration of `while (std::getline(file, line))`. -/
def load_line (st : LoadLoop) (line : List Char) : LoadLoop :=
  let line_num := st.line_num + 1
  match find_first_not_of line with
  | none => { st with line_num := line_num }
  | some start =>
    let last := (find_last_not_of line).getD 0
    let line := substr line start (last - start + 1)
    if line = [] ∨ line.head? = some '#' ∨ line.head? = some 'c' then
      { st with line_num := line_num }
    else
      match extract_int line with
      | none =>
        { st with line_num := line_num,
                  cerr := st.cerr ++ [Diagnostic.invalid_integer line_num line] }
      | some var =>
        if var = 0 then
          { st with line_num := line_num,
                    cerr := st.cerr ++ [Diagnostic.variable_zero line_num] }
        else
          { st with line_num := line_num,
                    branch_on_list := st.branch_on_list ++ [var] }

/-- The whole line loop, over the lines that successive `std::getline` calls
deliver. -/
def load_lines (lines : List (List Char)) : LoadLoop :=
  lines.foldl load_line { branch_on_list := [], line_num := 0, cerr := [] }

/-- Helper of `getlines`: `cur` is the part of the current line read so far. -/
def getlines_from (cur : List Char) : List Char → List (List Char)
  | [] => if cur = [] then [] else [cur]
  | c :: cs => if c = '\n' then cur :: getlines_from [] cs else getlines_from (cur ++ [c]) cs

/-- The lines that successive `std::getline(file, line)` calls deliver for a file
with the given contents: pieces ended by a newline, and a last unterminated piece
when it is not empty. -/
def getlines (text : List Char) : List (List Char) := getlines_from [] text

/-- Result of `load_branch_list_from_file`. -/
structure LoadResult where
  /-- The returned `bool`. -/
  ok : Bool
  /-- The object afterwards. -/
  state : PriorityBranchingPropagator
  /-- What was written to `std::cerr`. -/
  cerr : List Diagnostic
deriving DecidableEq

/-- `bool load_branch_list_from_file(const std::string& filename)`; `file` is what
opening `filename` gives. -/
def load_branch_list_from_file (s : PriorityBranchingPropagator)
    (file : Option (List Char)) : LoadResult :=
  match file with
  | none => { ok := false, state := s, cerr := [Diagnostic.cannot_open] }
  | some text =>
    let r := load_lines (getlines text)
    { ok := !r.branch_on_list.isEmpty,
      state := { s with branch_on_list := r.branch_on_list, branch_index := 0,
                        assigned_vars := ∅ },
      cerr := r.cerr }

/-- `void set_branch_on_list(const std::vector<int>& vars)`. -/
def set_branch_on_list (s : PriorityBranchingPropagator) (vars : List Int) :
    PriorityBranchingPropagator :=
  { s with branch_on_list := vars, branch_index := 0, assigned_vars := ∅ }

/-- `void clear_branch_on_list()`. -/
def clear_branch_on_list (s : PriorityBranchingPropagator) : PriorityBranchingPropagator :=
  { s with branch_on_list := [], branch_index := 0, assigned_vars := ∅ }

/-- `size_t get_processed_count() const`. -/
def get_processed_count (s : PriorityBranchingPropagator) : Nat := s.branch_index

/-- `size_t get_remaining_count() const`. -/
def get_remaining_count (s : PriorityBranchingPropagator) : Nat :=
  if s.branch_on_list.length > s.branch_index then
    s.branch_on_list.length - s.branch_index
  else 0

/-! ## The `ExternalPropagator` interface -/

/-- `void notify_assignment(const std::vector<int>& lits)`. -/
def notify_assignment (s : PriorityBranchingPropagator) (lits : List Int) :
    PriorityBranchingPropagator :=
  { s with assigned_vars := lits.foldl (fun set lit => insert (abs lit) set) s.assigned_vars }

/-- `void notify_new_decision_level()`. -/
def notify_new_decision_level (s : PriorityBranchingPropagator) :
    PriorityBranchingPropagator :=
  { s with decision_stack := s.decision_stack ++ [s.branch_index] }

/-- `void notify_backtrack(size_t new_level)`. -/
def notify_backtrack (s : PriorityBranchingPropagator) (new_level : Nat) :
    PriorityBranchingPropagator :=
  let s := { s with assigned_vars := ∅ }
  if new_level < s.decision_stack.length then
    { s with
      branch_index :=
        if new_level > 0 then s.decision_stack.getD (new_level - 1) 0 else 0,
      decision_stack := s.decision_stack.take new_level }
  else s

/-- The `while` loop of `cb_decide`, run for at most `fuel` iterations.  Every
iteration that does not return increments `branch_index`, so
`branch_on_list.size() - branch_index` iterations always suffice
(`cb_decide_loop_fuel`). -/
def cb_decide_loop : Nat → PriorityBranchingPropagator → Int × PriorityBranchingPropagator
  | 0, s => (0, s)
  | fuel + 1, s =>
    if s.branch_index < s.branch_on_list.length then
      let lit := s.branch_on_list.getD s.branch_index 0
      let var := abs lit
      if var ∉ s.assigned_vars then
        (lit, { s with branch_index := s.branch_index + 1 })
      else
        cb_decide_loop fuel { s with branch_index := s.branch_index + 1 }
    else (0, s)

/-- `int cb_decide()`: the returned literal and the object afterwards. -/
def cb_decide (s : PriorityBranchingPropagator) : Int × PriorityBranchingPropagator :=
  cb_decide_loop (s.branch_on_list.length - s.branch_index) s

/-! ## Traces of public operations -/

/-- The public operations of the class that change or read the state. -/
inductive Op where
  /-- `load_branch_list_from_file` on a file that opens (`some`) or not (`none`). -/
  | load (file : Option (List Char)) : Op
  /-- `set_branch_on_list(vars)`. -/
  | set_list (vars : List Int) : Op
  /-- `clear_branch_on_list()`. -/
  | clear : Op
  /-- `notify_assignment(lits)`. -/
  | assign (lits : List Int) : Op
  /-- `notify_new_decision_level()`. -/
  | new_level : Op
  /-- `notify_backtrack(new_level)`. -/
  | backtrack (new_level : Nat) : Op
  /-- `cb_decide()`. -/
  | decide : Op
deriving DecidableEq

/-- Effect of one operation on the object. -/
def step (s : PriorityBranchingPropagator) : Op → PriorityBranchingPropagator
  | .load file => (load_branch_list_from_file s file).state
  | .set_list vars => set_branch_on_list s vars
  | .clear => clear_branch_on_list s
  | .assign lits => notify_assignment s lits
  | .new_level => notify_new_decision_level s
  | .backtrack k => notify_backtrack s k
  | .decide => (cb_decide s).2

/-- Effect of a sequence of operations, first to last. -/
def run (s : PriorityBranchingPropagator) (ops : List Op) : PriorityBranchingPropagator :=
  ops.foldl step s

/-- The decision depth of the host after an operation, `d` being the depth before:
it grows by one on `notify_new_decision_level` and becomes `k` on
`notify_backtrack(k)`. -/
def host_depth_step (d : Nat) : Op → Nat
  | .new_level => d + 1
  | .backtrack k => k
  | _ => d

/-- The decision depth of the host after a sequence of operations. -/
def host_depth (d : Nat) (ops : List Op) : Nat := ops.foldl host_depth_step d

/-- A sequence of operations is well nested from depth `d` when every
`notify_backtrack(k)` in it has `k` at most the host depth at that moment. -/
def well_nested (d : Nat) : List Op → Bool
  | [] => true
  | .backtrack k :: ops => decide (k ≤ d) && well_nested k ops
  | op :: ops => well_nested (host_depth_step d op) ops

/-- The literals returned by `n` successive `cb_decide()` calls. -/
def cb_decide_n : Nat → PriorityBranchingPropagator → List Int
  | 0, _ => []
  | n + 1, s => (cb_decide s).1 :: cb_decide_n n (cb_decide s).2

/-- The list is (re)installed or cleared only at the root: every
`load_branch_list_from_file` on a file that opens, every `set_branch_on_list` and
every `clear_branch_on_list` of the sequence happens while the host depth is 0. -/
def reload_only_at_root (d : Nat) : List Op → Bool
  | [] => true
  | .load (some text) :: ops =>
    decide (d = 0) && reload_only_at_root (host_depth_step d (.load (some text))) ops
  | .set_list vars :: ops =>
    decide (d = 0) && reload_only_at_root (host_depth_step d (.set_list vars)) ops
  | .clear :: ops => decide (d = 0) && reload_only_at_root (host_depth_step d .clear) ops
  | op :: ops => reload_only_at_root (host_depth_step d op) ops

/-- The host's view of the checkpoints: the cursor values recorded at the time
each still-open decision level was entered, level 1 first.  `recorded` is the
record before the operations, `s` the object before them.  Entering a level
records the cursor of that moment; backtracking to level `k` closes the levels
above `k`. -/
def open_level_cursors (s : PriorityBranchingPropagator) (recorded : List Nat) :
    List Op → List Nat
  | [] => recorded
  | .new_level :: ops =>
    open_level_cursors (step s .new_level) (recorded ++ [s.branch_index]) ops
  | .backtrack k :: ops => open_level_cursors (step s (.backtrack k)) (recorded.take k) ops
  | op :: ops => open_level_cursors (step s op) recorded ops

/-! ## Reference definitions of the loader -/

/-- A line with the characters of `" \t\r\n"` removed at both ends. -/
def trim (line : List Char) : List Char :=
  (line.dropWhile in_trim_set).rdropWhile in_trim_set

/-- The value of a text that is, in its entirety, a single base-10 signed integer:
an optional sign followed by one or more decimal digits and nothing else. -/
def whole_integer (t : List Char) : Option Int :=
  let signed := split_sign t
  if signed.2 ≠ [] ∧ signed.2.all isdigit = true then
    some (if signed.1 then -(digits_value signed.2 : Int) else (digits_value signed.2 : Int))
  else none

/-- The entry a line contributes according to the reference definition of the
specification: the trimmed text is not empty, does not start with `#` or `c`, and
is in its entirety a single base-10 signed integer that fits in `int` and is
not 0. -/
def whole_line_entry (line : List Char) : Option Int :=
  if trim line = [] ∨ (trim line).head? = some '#' ∨ (trim line).head? = some 'c' then none
  else
    match whole_integer (trim line) with
    | some v => if INT_MIN ≤ v ∧ v ≤ INT_MAX ∧ v ≠ 0 then some v else none
    | none => none

/-- The entry a line contributes when only the beginning of the trimmed text has
to be an integer: the trimmed text is not empty, does not start with `#` or `c`,
and begins with a base-10 signed integer (the one `extract_int` reads, whatever
follows its digits) that fits in `int` and is not 0. -/
def leading_integer_entry (line : List Char) : Option Int :=
  if trim line = [] ∨ (trim line).head? = some '#' ∨ (trim line).head? = some 'c' then none
  else
    match extract_int (trim line) with
    | some v => if v ≠ 0 then some v else none
    | none => none

/-! ### The leading integer of a line, read off the text

These definitions describe what a line contributes without going through the
stream extraction: by character codes, place values and explicit bounds. -/

/-- White space in the "C" locale, by character code: the blank (32) and the
control characters 9 to 13 (tab, line feed, vertical tab, form feed, carriage
return). -/
def is_white_code (c : Char) : Bool :=
  decide (c.toNat = 32) || (decide (9 ≤ c.toNat) && decide (c.toNat ≤ 13))

/-- Decimal digits by character code: 48 (`0`) to 57 (`9`). -/
def is_digit_code (c : Char) : Bool := decide (48 ≤ c.toNat) && decide (c.toNat ≤ 57)

/-- A text without the white space at its start. -/
def skip_white : List Char → List Char
  | [] => []
  | c :: cs => if is_white_code c then skip_white cs else c :: cs

/-- The longest run of decimal digits at the start of a text. -/
def leading_digits : List Char → List Char
  | [] => []
  | c :: cs => if is_digit_code c then c :: leading_digits cs else []

/-- The number a run of decimal digits denotes, by place value. -/
def decimal_value : List Char → Nat
  | [] => 0
  | c :: cs => (c.toNat - 48) * 10 ^ cs.length + decimal_value cs

/-- The integer a sign and a run of digits denote: defined when there is at least
one digit and the integer lies between `-2147483648` and `2147483647`. -/
def signed_decimal (negative : Bool) (ds : List Char) : Option Int :=
  if ds = [] then none
  else if negative then
    (if decimal_value ds ≤ 2147483648 then some (-(decimal_value ds : Int)) else none)
  else
    (if decimal_value ds ≤ 2147483647 then some (decimal_value ds : Int) else none)

/-- The integer a text begins with: after any white space at its start, an
optional sign `-` or `+` and then the longest run of decimal digits, which has to
hold at least one digit and denote an integer that fits in `int`.  Whatever
follows the digits is of no account. -/
def leading_integer (t : List Char) : Option Int :=
  match skip_white t with
  | [] => none
  | c :: cs =>
    if c = '-' then signed_decimal true (leading_digits cs)
    else if c = '+' then signed_decimal false (leading_digits cs)
    else signed_decimal false (leading_digits (c :: cs))

/-- The entry a line contributes, read off its text: the line trimmed of blanks,
tabs, CR and LF at both ends is not empty, does not start with `#` or `c`, and
begins with an integer in the sense of `leading_integer` that is not 0. -/
def reference_line_entry (line : List Char) : Option Int :=
  match trim line with
  | [] => none
  | c :: cs =>
    if c = '#' ∨ c = 'c' then none
    else
      match leading_integer (c :: cs) with
      | some v => if v = 0 then none else some v
      | none => none

/-- The sample branch list printed by the usage text of
`example_priority_branch.cpp`, line by line (the two leading blanks of the
printed text included). -/
def sample_branch_list : List (List Char) :=
  ["  # 强制分支顺序".toList,
   "  -3   # 先将变量3设为false".toList,
   "  1    # 再将变量1设为true".toList,
   "  -2   # 再将变量2设为false".toList]

/-- The contents of a file holding the sample branch list, one line each. -/
def sample_branch_file : List Char :=
  (sample_branch_list.map (fun line => line ++ ['\n'])).flatten

/-! ## Positions offered by the decision callback -/

/-- The loop of `cb_decide` again, keeping only the list position of the literal
it returns: the `branch_index - 1` of the trace line
`Priority branch: <lit> (index <i>/<size>)`.  `none`: the loop ended and
`cb_decide` returned `0` after it. -/
def cb_decide_index_loop : Nat → PriorityBranchingPropagator → Option Nat
  | 0, _ => none
  | fuel + 1, s =>
    if s.branch_index < s.branch_on_list.length then
      let lit := s.branch_on_list.getD s.branch_index 0
      let var := abs lit
      if var ∉ s.assigned_vars then
        some s.branch_index
      else
        cb_decide_index_loop fuel { s with branch_index := s.branch_index + 1 }
    else none

/-- The list position of the literal returned by `cb_decide()`, if it returns
one from the list. -/
def cb_decide_index (s : PriorityBranchingPropagator) : Option Nat :=
  cb_decide_index_loop (s.branch_on_list.length - s.branch_index) s

/-- A forward run: only `cb_decide`, `notify_assignment` and
`notify_new_decision_level`, no `notify_backtrack` and no reload. -/
def forward_run : List Op → Bool
  | [] => true
  | .decide :: ops => forward_run ops
  | .assign _ :: ops => forward_run ops
  | .new_level :: ops => forward_run ops
  | _ :: _ => false

/-- The list positions of the literals returned by the `cb_decide()` calls of a
sequence of operations, in the order of the calls. -/
def offered_positions (s : PriorityBranchingPropagator) : List Op → List Nat
  | [] => []
  | .decide :: ops =>
    (cb_decide_index s).toList ++ offered_positions (step s .decide) ops
  | op :: ops => offered_positions (step s op) ops

/-- The literals returned by the `cb_decide()` calls of a sequence of operations,
in the order of the calls. -/
def decide_results (s : PriorityBranchingPropagator) : List Op → List Int
  | [] => []
  | .decide :: ops => (cb_decide s).1 :: decide_results (step s .decide) ops
  | op :: ops => decide_results (step s op) ops

/-! ## Basic facts about `cb_decide` -/

/-- The loop never needs more than `size - branch_index` iterations: with any
larger bound it computes the same result. -/
theorem cb_decide_loop_fuel (fuel : Nat) (s : PriorityBranchingPropagator)
    (h : s.branch_on_list.length - s.branch_index ≤ fuel) :
    cb_decide_loop fuel s = cb_decide s := by
  unfold cb_decide
  induction fuel generalizing s with
  | zero =>
    have h0 : s.branch_on_list.length - s.branch_index = 0 := by omega
    rw [h0]
  | succ n ih =>
    cases hm : s.branch_on_list.length - s.branch_index with
    | zero =>
      have hlt : ¬ s.branch_index < s.branch_on_list.length := by omega
      simp [cb_decide_loop, hlt]
    | succ m =>
      have hlt : s.branch_index < s.branch_on_list.length := by omega
      simp only [cb_decide_loop, hlt, if_true]
      split
      · rfl
      · have e1 := ih { s with branch_index := s.branch_index + 1 } (by simp; omega)
        have e2 : m = s.branch_on_list.length - (s.branch_index + 1) := by omega
        rw [e1, e2]

/-- One unfolding of the `while` loop of `cb_decide`. -/
theorem cb_decide_unfold (s : PriorityBranchingPropagator) :
    cb_decide s =
      if s.branch_index < s.branch_on_list.length then
        if abs (s.branch_on_list.getD s.branch_index 0) ∉ s.assigned_vars then
          (s.branch_on_list.getD s.branch_index 0,
            { s with branch_index := s.branch_index + 1 })
        else cb_decide { s with branch_index := s.branch_index + 1 }
      else (0, s) := by
  by_cases hlt : s.branch_index < s.branch_on_list.length
  · obtain ⟨m, hm⟩ : ∃ m, s.branch_on_list.length - s.branch_index = m + 1 :=
      ⟨s.branch_on_list.length - s.branch_index - 1, by omega⟩
    have hrec := cb_decide_loop_fuel m { s with branch_index := s.branch_index + 1 }
      (by simp; omega)
    conv_lhs => unfold cb_decide
    rw [hm]
    simp only [cb_decide_loop, hlt, if_true]
    rw [hrec]
  · have h0 : s.branch_on_list.length - s.branch_index = 0 := by omega
    simp [cb_decide, h0, cb_decide_loop, hlt]

/-- With nothing marked assigned, `cb_decide` inside the list returns the entry at
the cursor and advances the cursor by one. -/
theorem cb_decide_of_empty (s : PriorityBranchingPropagator)
    (he : s.assigned_vars = ∅) (hlt : s.branch_index < s.branch_on_list.length) :
    cb_decide s = (s.branch_on_list.getD s.branch_index 0,
      { s with branch_index := s.branch_index + 1 }) := by
  rw [cb_decide_unfold]
  simp [hlt, he]

/-- Past the end of the list `cb_decide` returns `0` and changes nothing. -/
theorem cb_decide_of_exhausted (s : PriorityBranchingPropagator)
    (hge : s.branch_on_list.length ≤ s.branch_index) :
    cb_decide s = (0, s) := by
  rw [cb_decide_unfold]
  simp [Nat.not_lt.mpr hge]

/-- `cb_decide` changes the cursor only. -/
theorem cb_decide_frame (s : PriorityBranchingPropagator) :
    (cb_decide s).2 = { s with branch_index := (cb_decide s).2.branch_index } := by
  unfold cb_decide
  generalize s.branch_on_list.length - s.branch_index = fuel
  induction fuel generalizing s with
  | zero => simp [cb_decide_loop]
  | succ n ih =>
    simp only [cb_decide_loop]
    split
    · split
      · rfl
      · have := ih { s with branch_index := s.branch_index + 1 }
        rw [this]
    · rfl

/-- A literal returned by `cb_decide` is `0` or has its variable outside the
assigned set. -/
theorem cb_decide_result (s : PriorityBranchingPropagator) :
    (cb_decide s).1 = 0 ∨ abs (cb_decide s).1 ∉ s.assigned_vars := by
  unfold cb_decide
  generalize s.branch_on_list.length - s.branch_index = fuel
  induction fuel generalizing s with
  | zero => simp [cb_decide_loop]
  | succ n ih =>
    simp only [cb_decide_loop]
    split
    · split
      · right; assumption
      · exact ih { s with branch_index := s.branch_index + 1 }
    · left; rfl

/-- Repeated `cb_decide` with an empty assigned set lists the rest of the
priority list and then returns `0` for ever. -/
theorem cb_decide_n_of_empty (k : Nat) (s : PriorityBranchingPropagator)
    (he : s.assigned_vars = ∅) :
    cb_decide_n (s.branch_on_list.length - s.branch_index + k) s =
      s.branch_on_list.drop s.branch_index ++ List.replicate k 0 := by
  generalize hm : s.branch_on_list.length - s.branch_index = m
  induction m generalizing s with
  | zero =>
    have hge : s.branch_on_list.length ≤ s.branch_index := by omega
    rw [List.drop_eq_nil_of_le hge]
    simp only [Nat.zero_add, List.nil_append]
    induction k with
    | zero => rfl
    | succ k ihk =>
      simp only [cb_decide_n, cb_decide_of_exhausted s hge, List.replicate_succ]
      rw [ihk]
  | succ m ih =>
    have hlt : s.branch_index < s.branch_on_list.length := by omega
    have e : m + 1 + k = (m + k) + 1 := by omega
    rw [e]
    simp only [cb_decide_n, cb_decide_of_empty s he hlt]
    rw [ih { s with branch_index := s.branch_index + 1 } he (by simp; omega)]
    simp only
    rw [List.getD_eq_getElem _ _ hlt, ← List.cons_append, List.drop_eq_getElem_cons hlt]

/-- The cursor never moves backwards in `cb_decide`, and never beyond the end of
the list when it started inside it. -/
theorem cb_decide_index_bounds (s : PriorityBranchingPropagator) :
    s.branch_index ≤ (cb_decide s).2.branch_index ∧
      (s.branch_index ≤ s.branch_on_list.length →
        (cb_decide s).2.branch_index ≤ s.branch_on_list.length) := by
  unfold cb_decide
  generalize s.branch_on_list.length - s.branch_index = fuel
  induction fuel generalizing s with
  | zero => simp [cb_decide_loop]
  | succ n ih =>
    simp only [cb_decide_loop]
    split
    · split
      · simp; omega
      · have h := ih { s with branch_index := s.branch_index + 1 }
        simp only at h
        constructor
        · omega
        · intro _; apply h.2; omega
    · simp

/-! ## Basic facts about traces -/

theorem run_nil (s : PriorityBranchingPropagator) : run s [] = s := rfl

theorem run_cons (s : PriorityBranchingPropagator) (op : Op) (ops : List Op) :
    run s (op :: ops) = run (step s op) ops := rfl

theorem run_append (s : PriorityBranchingPropagator) (ops ops2 : List Op) :
    run s (ops ++ ops2) = run (run s ops) ops2 := by
  simp [run, List.foldl_append]

/-- The checkpoint stack after `notify_backtrack(k)` is the first `k` elements of
the stack before, for every `k`. -/
theorem notify_backtrack_stack (s : PriorityBranchingPropagator) (k : Nat) :
    (notify_backtrack s k).decision_stack = s.decision_stack.take k := by
  unfold notify_backtrack
  by_cases h : k < s.decision_stack.length
  · simp [h]
  · simp only [h, if_false]
    rw [List.take_of_length_le (by omega)]

/-- Effect of every operation on the checkpoint stack. -/
theorem step_decision_stack (s : PriorityBranchingPropagator) (op : Op) :
    (step s op).decision_stack =
      match op with
      | .new_level => s.decision_stack ++ [s.branch_index]
      | .backtrack k => s.decision_stack.take k
      | _ => s.decision_stack := by
  cases op with
  | load file => cases file <;> rfl
  | set_list vars => rfl
  | clear => rfl
  | assign lits => rfl
  | new_level => rfl
  | backtrack k => exact notify_backtrack_stack s k
  | decide =>
    show (cb_decide s).2.decision_stack = _
    rw [cb_decide_frame]

/-- In a well-nested sequence the length of the checkpoint stack follows the
host depth. -/
theorem run_decision_stack_length (ops : List Op) (d : Nat)
    (s : PriorityBranchingPropagator) (hd : s.decision_stack.length = d)
    (hw : well_nested d ops = true) :
    (run s ops).decision_stack.length = host_depth d ops := by
  induction ops generalizing d s with
  | nil => simpa [run, host_depth] using hd
  | cons op ops ih =>
    rw [run_cons]
    show _ = host_depth (host_depth_step d op) ops
    have hs := step_decision_stack s op
    cases op with
    | backtrack k =>
      simp only [well_nested, Bool.and_eq_true, decide_eq_true_eq] at hw
      apply ih
      · rw [hs]; simp [host_depth_step]; omega
      · exact hw.2
    | new_level =>
      apply ih
      · rw [hs]; simp [host_depth_step, hd]
      · exact hw
    | load file => exact ih _ _ (by rw [hs]; exact hd) hw
    | set_list vars => exact ih _ _ (by rw [hs]; exact hd) hw
    | clear => exact ih _ _ (by rw [hs]; exact hd) hw
    | assign lits => exact ih _ _ (by rw [hs]; exact hd) hw
    | decide => exact ih _ _ (by rw [hs]; exact hd) hw

/-- The checkpoint stack is the host's record of the cursor values at the entry
of the open levels. -/
theorem run_decision_stack_eq_record (ops : List Op) (s : PriorityBranchingPropagator) :
    (run s ops).decision_stack = open_level_cursors s s.decision_stack ops := by
  induction ops generalizing s with
  | nil => rfl
  | cons op ops ih =>
    rw [run_cons, ih]
    have hs := step_decision_stack s op
    cases op <;> simp only [open_level_cursors] <;> rw [hs]

/-- `cb_decide` keeps the priority list. -/
theorem cb_decide_branch_on_list (s : PriorityBranchingPropagator) :
    (cb_decide s).2.branch_on_list = s.branch_on_list := by
  rw [cb_decide_frame]

/-- `cb_decide` keeps the assigned set. -/
theorem cb_decide_assigned_vars (s : PriorityBranchingPropagator) :
    (cb_decide s).2.assigned_vars = s.assigned_vars := by
  rw [cb_decide_frame]

/-- `cb_decide` keeps the checkpoint stack. -/
theorem cb_decide_decision_stack (s : PriorityBranchingPropagator) :
    (cb_decide s).2.decision_stack = s.decision_stack := by
  rw [cb_decide_frame]

/-- Every literal returned in a run of `cb_decide()` calls is `0` or has its
variable outside the assigned set. -/
theorem cb_decide_n_result (n : Nat) (s : PriorityBranchingPropagator) :
    ∀ r ∈ cb_decide_n n s, r = 0 ∨ abs r ∉ s.assigned_vars := by
  induction n generalizing s with
  | zero => intro r hr; simp [cb_decide_n] at hr
  | succ n ih =>
    intro r hr
    simp only [cb_decide_n, List.mem_cons] at hr
    rcases hr with hr | hr
    · rw [hr]; exact cb_decide_result s
    · have h := ih (cb_decide s).2 r hr
      rwa [cb_decide_assigned_vars] at h

/-- The assigned set after `notify_assignment(lits)`. -/
theorem mem_notify_assignment (s : PriorityBranchingPropagator) (lits : List Int) (v : Int) :
    v ∈ (notify_assignment s lits).assigned_vars ↔
      v ∈ s.assigned_vars ∨ ∃ l ∈ lits, abs l = v := by
  unfold notify_assignment
  simp only
  generalize s.assigned_vars = set
  induction lits generalizing set with
  | nil => simp
  | cons l ls ih =>
    simp only [List.foldl_cons, ih, Finset.mem_insert, List.mem_cons, exists_eq_or_imp]
    constructor
    · rintro ((h | h) | h)
      · right; left; exact h.symm
      · left; exact h
      · right; right; exact h
    · rintro (h | h | h)
      · left; right; exact h
      · left; left; exact h.symm
      · right; exact h

theorem abs_of_pos (v : Int) (h : 0 < v) : abs v = v := by
  unfold abs; split <;> omega

theorem abs_neg_of_pos (v : Int) (h : 0 < v) : abs (-v) = v := by
  unfold abs; split <;> omega

/-- The invariant behind the cursor bound: in a well-nested sequence that
reinstalls the list only at the root, the cursor and every checkpoint stay within
the list. -/
theorem run_cursor_bound (ops : List Op) (d : Nat) (s : PriorityBranchingPropagator)
    (hd : s.decision_stack.length = d)
    (hc : s.branch_index ≤ s.branch_on_list.length)
    (hs : ∀ x ∈ s.decision_stack, x ≤ s.branch_on_list.length)
    (hw : well_nested d ops = true) (hr : reload_only_at_root d ops = true) :
    (run s ops).branch_index ≤ (run s ops).branch_on_list.length := by
  induction ops generalizing d s with
  | nil => exact hc
  | cons op ops ih =>
    rw [run_cons]
    cases op with
    | load file =>
      cases file with
      | none => exact ih d s hd hc hs hw hr
      | some text =>
        simp only [reload_only_at_root, Bool.and_eq_true, decide_eq_true_eq] at hr
        have hnil : s.decision_stack = [] := List.length_eq_zero.mp (hd.trans hr.1)
        refine ih d _ ?_ ?_ ?_ hw hr.2
        · simpa [step, load_branch_list_from_file] using hd
        · simp [step, load_branch_list_from_file]
        · simp [step, load_branch_list_from_file, hnil]
    | set_list vars =>
      simp only [reload_only_at_root, Bool.and_eq_true, decide_eq_true_eq] at hr
      have hnil : s.decision_stack = [] := List.length_eq_zero.mp (hd.trans hr.1)
      refine ih d _ ?_ ?_ ?_ hw hr.2
      · simpa [step, set_branch_on_list] using hd
      · simp [step, set_branch_on_list]
      · simp [step, set_branch_on_list, hnil]
    | clear =>
      simp only [reload_only_at_root, Bool.and_eq_true, decide_eq_true_eq] at hr
      have hnil : s.decision_stack = [] := List.length_eq_zero.mp (hd.trans hr.1)
      refine ih d _ ?_ ?_ ?_ hw hr.2
      · simpa [step, clear_branch_on_list] using hd
      · simp [step, clear_branch_on_list]
      · simp [step, clear_branch_on_list, hnil]
    | assign lits => exact ih d _ hd hc hs hw hr
    | new_level =>
      refine ih (d + 1) _ ?_ hc ?_ hw hr
      · simp [step, notify_new_decision_level, hd]
      · intro x hx
        simp only [step, notify_new_decision_level, List.mem_append, List.mem_singleton] at hx
        rcases hx with hx | hx
        · exact hs x hx
        · rw [hx]; exact hc
    | backtrack k =>
      simp only [well_nested, Bool.and_eq_true, decide_eq_true_eq] at hw
      have hr2 : reload_only_at_root k ops = true := hr
      by_cases hk : k < s.decision_stack.length
      · have e : step s (.backtrack k) =
            { s with assigned_vars := ∅,
                     branch_index := if k > 0 then s.decision_stack.getD (k - 1) 0 else 0,
                     decision_stack := s.decision_stack.take k } := by
          simp [step, notify_backtrack, hk]
        rw [e]
        refine ih k _ ?_ ?_ ?_ hw.2 hr2
        · simp; omega
        · show (if k > 0 then s.decision_stack.getD (k - 1) 0 else 0) ≤ _
          split
          · have hk1 : k - 1 < s.decision_stack.length := by omega
            rw [List.getD_eq_getElem _ _ hk1]
            exact hs _ (List.getElem_mem _)
          · exact Nat.zero_le _
        · intro x hx
          exact hs x (List.mem_of_mem_take hx)
      · have e : step s (.backtrack k) = { s with assigned_vars := ∅ } := by
          simp [step, notify_backtrack, hk]
        rw [e]
        exact ih k _ (by simp; omega) hc hs hw.2 hr2
    | decide =>
      refine ih d _ ?_ ?_ ?_ hw hr
      · show (cb_decide s).2.decision_stack.length = d
        rw [cb_decide_decision_stack]; exact hd
      · show (cb_decide s).2.branch_index ≤ (cb_decide s).2.branch_on_list.length
        rw [cb_decide_branch_on_list]
        exact (cb_decide_index_bounds s).2 hc
      · show ∀ x ∈ (cb_decide s).2.decision_stack, x ≤ (cb_decide s).2.branch_on_list.length
        rw [cb_decide_decision_stack, cb_decide_branch_on_list]
        exact hs

/-! ## Basic facts about the loader -/

theorem rdropWhile_cons (p : Char → Bool) (c : Char) (cs : List Char) :
    (c :: cs).rdropWhile p =
      if cs.rdropWhile p = [] then (if p c then [] else [c]) else c :: cs.rdropWhile p := by
  simp only [List.rdropWhile, List.reverse_cons, List.dropWhile_append]
  by_cases h : List.dropWhile p cs.reverse = []
  · simp only [h, List.isEmpty_nil, if_true, List.reverse_nil]
    by_cases hc : p c = true <;> simp [List.dropWhile, hc]
  · have h2 : (List.dropWhile p cs.reverse).isEmpty = false := by
      cases hl : List.dropWhile p cs.reverse with
      | nil => exact absurd hl h
      | cons _ _ => rfl
    simp [h, h2]

/-- When `find_last_not_of` finds nothing, trimming at the right leaves nothing. -/
theorem find_last_not_of_none (l : List Char) (h : find_last_not_of l = none) :
    l.rdropWhile in_trim_set = [] := by
  induction l with
  | nil => rfl
  | cons c cs ih =>
    simp only [find_last_not_of] at h
    cases hcs : find_last_not_of cs with
    | some i => simp [hcs] at h
    | none =>
      simp only [hcs] at h
      have hc : in_trim_set c = true := by
        by_contra hn
        simp [hn] at h
      rw [rdropWhile_cons, ih hcs]
      simp [hc]

/-- The prefix up to the position `find_last_not_of` finds is the line trimmed at
the right. -/
theorem find_last_not_of_some (l : List Char) (j : Nat) (h : find_last_not_of l = some j) :
    l.take (j + 1) = l.rdropWhile in_trim_set ∧ j < l.length := by
  induction l generalizing j with
  | nil => simp [find_last_not_of] at h
  | cons c cs ih =>
    simp only [find_last_not_of] at h
    cases hcs : find_last_not_of cs with
    | some i =>
      simp only [hcs, Option.some.injEq] at h
      subst h
      obtain ⟨h1, h2⟩ := ih i hcs
      have hne : cs.rdropWhile in_trim_set ≠ [] := by
        rw [← h1]
        cases cs with
        | nil => simp at h2
        | cons _ _ => simp
      rw [rdropWhile_cons]
      simp only [hne, if_false, List.take_succ_cons, h1, List.length_cons]
      exact ⟨trivial, by omega⟩
    | none =>
      simp only [hcs] at h
      have hc : in_trim_set c = false := by
        by_contra hn
        simp at hn
        simp [hn] at h
      simp only [hc, Bool.false_eq_true, if_false, Option.some.injEq] at h
      subst h
      rw [rdropWhile_cons, find_last_not_of_none cs hcs]
      simp [hc]

/-- When `find_first_not_of` finds nothing the trimmed line is empty. -/
theorem find_first_not_of_none (l : List Char) (h : find_first_not_of l = none) :
    trim l = [] := by
  have hd : l.dropWhile in_trim_set = [] := by
    induction l with
    | nil => rfl
    | cons c cs ih =>
      simp only [find_first_not_of] at h
      by_cases hc : in_trim_set c = true
      · simp only [hc, if_true, Option.map_eq_none'] at h
        simp [List.dropWhile, hc, ih h]
      · simp [hc] at h
  simp [trim, hd]

/-- When `find_first_not_of` finds a position, `find_last_not_of` finds one that
is not before it, and the substring between the two is the trimmed line. -/
theorem find_first_not_of_some (l : List Char) (i : Nat) (h : find_first_not_of l = some i) :
    ∃ j, find_last_not_of l = some j ∧ i ≤ j ∧ substr l i (j - i + 1) = trim l := by
  induction l generalizing i with
  | nil => simp [find_first_not_of] at h
  | cons c cs ih =>
    simp only [find_first_not_of] at h
    by_cases hc : in_trim_set c = true
    · simp only [hc, if_true, Option.map_eq_some'] at h
      obtain ⟨i0, hi0, rfl⟩ := h
      obtain ⟨j0, hj0, hle, hsub⟩ := ih i0 hi0
      refine ⟨j0 + 1, by simp [find_last_not_of, hj0], by omega, ?_⟩
      have e : j0 + 1 - (i0 + 1) + 1 = j0 - i0 + 1 := by omega
      simp only [substr, List.drop_succ_cons, e] at hsub ⊢
      rw [hsub]
      simp [trim, List.dropWhile, hc]
    · have hc2 : in_trim_set c = false := by simpa using hc
      simp only [hc2, Bool.false_eq_true, if_false, Option.some.injEq] at h
      subst h
      have hsome : ∃ j, find_last_not_of (c :: cs) = some j := by
        simp only [find_last_not_of]
        cases find_last_not_of cs with
        | some k => exact ⟨k + 1, rfl⟩
        | none => exact ⟨0, by simp [hc2]⟩
      obtain ⟨j, hj⟩ := hsome
      refine ⟨j, hj, Nat.zero_le _, ?_⟩
      have h3 := (find_last_not_of_some (c :: cs) j hj).1
      simp only [substr, List.drop_zero, Nat.sub_zero, h3]
      simp [trim, List.dropWhile, hc2]

/-- One iteration of the line loop appends the entry of the line, if it has one. -/
theorem load_line_branch_on_list (st : LoadLoop) (line : List Char) :
    (load_line st line).branch_on_list =
      st.branch_on_list ++ (leading_integer_entry line).toList := by
  unfold load_line leading_integer_entry
  cases hf : find_first_not_of line with
  | none => simp [find_first_not_of_none line hf]
  | some start =>
    obtain ⟨j, hj, _, hsub⟩ := find_first_not_of_some line start hf
    simp only [hj, Option.getD_some, hsub]
    by_cases hcm : trim line = [] ∨ (trim line).head? = some '#' ∨ (trim line).head? = some 'c'
    · simp [hcm]
    · simp only [hcm, if_false]
      cases extract_int (trim line) with
      | none => simp
      | some v => by_cases hv : v = 0 <;> simp [hv]

/-- The line loop collects the entries of the lines in input order. -/
theorem foldl_load_line_branch_on_list (lines : List (List Char)) (st : LoadLoop) :
    (lines.foldl load_line st).branch_on_list =
      st.branch_on_list ++ lines.filterMap leading_integer_entry := by
  induction lines generalizing st with
  | nil => simp
  | cons l ls ih =>
    rw [List.foldl_cons, ih, load_line_branch_on_list]
    cases h : leading_integer_entry l <;> simp [List.filterMap_cons, h]

theorem split_sign_cases (t : List Char) :
    (∃ r, t = '-' :: r ∧ split_sign t = (true, r)) ∨
    (∃ r, t = '+' :: r ∧ split_sign t = (false, r)) ∨
    split_sign t = (false, t) := by
  unfold split_sign
  split
  · left; exact ⟨_, rfl, rfl⟩
  · right; left; exact ⟨_, rfl, rfl⟩
  · right; right; rfl

theorem not_isspace_of_isdigit (c : Char) (h : isdigit c = true) : isspace c = false := by
  by_contra hs
  have hs2 : isspace c = true := by simpa using hs
  simp only [isspace, Bool.or_eq_true, decide_eq_true_eq] at hs2
  rcases hs2 with ((((hc | hc) | hc) | hc) | hc) | hc <;> subst hc <;> revert h <;> decide

/-- A text that is an integer in its entirety is read by `extract_int` with the
same value. -/
theorem extract_int_of_whole_integer (t : List Char) (v : Int)
    (h : whole_integer t = some v) (hr : INT_MIN ≤ v ∧ v ≤ INT_MAX) :
    extract_int t = some v := by
  unfold whole_integer at h
  simp only at h
  split at h
  · rename_i hds
    obtain ⟨hne, hall⟩ := hds
    simp only [Option.some.injEq] at h
    have htw : (split_sign t).2.takeWhile isdigit = (split_sign t).2 := by
      rw [List.takeWhile_eq_self_iff]
      intro x hx
      exact (List.all_eq_true.mp hall) x hx
    have hdw : t.dropWhile isspace = t := by
      rcases split_sign_cases t with ⟨r, rfl, _⟩ | ⟨r, rfl, _⟩ | hsg
      · rfl
      · rfl
      · rw [hsg] at hne hall
        cases t with
        | nil => exact absurd rfl hne
        | cons c cs =>
          have hc : isdigit c = true := (List.all_eq_true.mp hall) c (List.mem_cons_self _ _)
          simp [List.dropWhile, not_isspace_of_isdigit c hc]
    unfold extract_int
    simp only [hdw, htw, hne, if_false, h, hr, and_self, if_true]
  · exact absurd h (by simp)

/-- Every line that has an entry under the whole-line reading has the same entry
under the leading-integer reading. -/
theorem leading_of_whole_line_entry (line : List Char) (v : Int)
    (h : whole_line_entry line = some v) : leading_integer_entry line = some v := by
  unfold whole_line_entry at h
  unfold leading_integer_entry
  split at h
  · exact absurd h (by simp)
  · rename_i hcm
    simp only [hcm, if_false]
    cases hw : whole_integer (trim line) with
    | none => simp [hw] at h
    | some w =>
      simp only [hw] at h
      split at h
      · rename_i hrange
        simp only [Option.some.injEq] at h
        subst h
        rw [extract_int_of_whole_integer (trim line) w hw ⟨hrange.1, hrange.2.1⟩]
        simp [hrange.2.2]
      · exact absurd h (by simp)

/-! ## Decision callback on a freshly installed list -/

/-- C1: for every prior state and every priority list `L`, installing `L` with
`set_branch_on_list`, or by a `load_branch_list_from_file` that yields `L`, and
then calling `cb_decide()` repeatedly with nothing in between returns the entries
of `L` in order on the first `n = |L|` calls and `0` on each of the `k` calls
after them, for every `k`.  (It holds for every `L`, in particular for the lists
without a zero entry.) -/
theorem C1_decide_yields_list_in_order (s : PriorityBranchingPropagator)
    (L : List Int) (k : Nat) :
    cb_decide_n (L.length + k) (set_branch_on_list s L) = L ++ List.replicate k 0 ∧
    ∀ text : List Char,
      (load_branch_list_from_file s (some text)).state.branch_on_list = L →
      cb_decide_n (L.length + k) (load_branch_list_from_file s (some text)).state =
        L ++ List.replicate k 0 := by
  constructor
  · have h := cb_decide_n_of_empty k (set_branch_on_list s L) rfl
    simpa [set_branch_on_list] using h
  · intro text hL
    have h := cb_decide_n_of_empty k (load_branch_list_from_file s (some text)).state rfl
    rw [hL] at h
    simpa [load_branch_list_from_file] using h

/-- C1 at the list `[-3, 1, -2]`, installed directly and loaded from a file: five
calls return `-3, 1, -2, 0, 0`. -/
theorem C1_decide_yields_list_in_order_witness :
    (load_branch_list_from_file (PriorityBranchingPropagator.new false)
        (some "-3\n1\n-2\n".toList)).state.branch_on_list = [-3, 1, -2] ∧
    cb_decide_n 5 (set_branch_on_list (PriorityBranchingPropagator.new false) [-3, 1, -2])
      = [-3, 1, -2, 0, 0] ∧
    cb_decide_n 5 (load_branch_list_from_file (PriorityBranchingPropagator.new false)
        (some "-3\n1\n-2\n".toList)).state = [-3, 1, -2, 0, 0] :=
  ⟨by decide,
   (C1_decide_yields_list_in_order (PriorityBranchingPropagator.new false) [-3, 1, -2] 2).1,
   (C1_decide_yields_list_in_order (PriorityBranchingPropagator.new false) [-3, 1, -2] 2).2
      "-3\n1\n-2\n".toList (by decide)⟩

/-! ## Backtracking -/

/-- C2 fails as stated: with `[-3, 1, -2]` freshly installed, two `cb_decide()`
calls return `-3` and `1`; no decision level was entered, so the checkpoint stack
is empty, `notify_backtrack(0)` leaves the cursor at 2 and the next `cb_decide()`
returns `-2`, not `-3`. -/
theorem C2_counterexample :
    cb_decide_n 2 (set_branch_on_list (PriorityBranchingPropagator.new false) [-3, 1, -2])
      = [-3, 1] ∧
    (run (PriorityBranchingPropagator.new false)
      [.set_list [-3, 1, -2], .decide, .decide, .backtrack 0]).branch_index = 2 ∧
    (cb_decide (run (PriorityBranchingPropagator.new false)
      [.set_list [-3, 1, -2], .decide, .decide, .backtrack 0])).1 = -2 := by
  decide

/-- C2 (amended): for every state whose checkpoint stack is not empty, after
`notify_backtrack(0)` the cursor is 0 and the assigned set is empty, so the next
`cb_decide()` on a non-empty list returns the first entry. -/
theorem C2_backtrack_root_rewinds (s : PriorityBranchingPropagator)
    (hd : s.decision_stack ≠ []) :
    (notify_backtrack s 0).branch_index = 0 ∧
    (notify_backtrack s 0).assigned_vars = ∅ ∧
    ∀ x xs, s.branch_on_list = x :: xs → (cb_decide (notify_backtrack s 0)).1 = x := by
  have hpos : 0 < s.decision_stack.length := List.length_pos.mpr hd
  have e : notify_backtrack s 0 =
      { s with assigned_vars := ∅, branch_index := 0, decision_stack := [] } := by
    simp [notify_backtrack, hpos]
  refine ⟨by rw [e], by rw [e], ?_⟩
  intro x xs hx
  rw [e, cb_decide_of_empty _ rfl (by simp [hx])]
  simp [hx]

/-- C2 (amended) on the example of the specification with the decision levels
entered: `-3` is decided, level 1 entered, `1` decided, level 2 entered, then
`notify_backtrack(0)`; the next `cb_decide()` returns `-3`. -/
theorem C2_backtrack_root_rewinds_witness :
    (run (PriorityBranchingPropagator.new false)
      [.set_list [-3, 1, -2], .decide, .new_level, .decide, .new_level]).decision_stack ≠ [] ∧
    (cb_decide (notify_backtrack (run (PriorityBranchingPropagator.new false)
      [.set_list [-3, 1, -2], .decide, .new_level, .decide, .new_level]) 0)).1 = -3 :=
  ⟨by decide,
   (C2_backtrack_root_rewinds (run (PriorityBranchingPropagator.new false)
      [.set_list [-3, 1, -2], .decide, .new_level, .decide, .new_level]) (by decide)).2.2
      (-3) [1, -2] (by decide)⟩

/-- C3 fails as stated: `1`, `2`, `3` are decided and a level entered after each,
so the cursor values recorded for levels 1, 2, 3 are `1, 2, 3`.  The sequence is
well nested, and after `notify_backtrack(1)` the cursor is 1, the value recorded
when level 1 was entered, not 2, the value recorded when level 2 was entered. -/
theorem C3_counterexample :
    well_nested 0 [.set_list [1, 2, 3], .decide, .new_level, .decide, .new_level,
      .decide, .new_level, .backtrack 1] = true ∧
    open_level_cursors (PriorityBranchingPropagator.new false) []
      [.set_list [1, 2, 3], .decide, .new_level, .decide, .new_level,
        .decide, .new_level] = [1, 2, 3] ∧
    (run (PriorityBranchingPropagator.new false)
      [.set_list [1, 2, 3], .decide, .new_level, .decide, .new_level,
        .decide, .new_level, .backtrack 1]).branch_index = 1 ∧
    ¬ ((open_level_cursors (PriorityBranchingPropagator.new false) []
      [.set_list [1, 2, 3], .decide, .new_level, .decide, .new_level,
        .decide, .new_level])[1]? = some (run (PriorityBranchingPropagator.new false)
      [.set_list [1, 2, 3], .decide, .new_level, .decide, .new_level,
        .decide, .new_level, .backtrack 1]).branch_index) := by
  decide

/-- C3 (amended): for every well-nested sequence of operations on a freshly
constructed module, with `d` the host depth after it: the recorded cursor values
are `d` many; after `notify_backtrack(k)` with `1 ≤ k < d` the cursor is the
value recorded when level `k` was entered (the `k`-th still-open
`notify_new_decision_level`); after `notify_backtrack(0)` with `0 < d` it is 0;
after `notify_backtrack(d)` it is unchanged. -/
theorem C3_backtrack_restores_recorded_cursor (verbose : Bool) (ops : List Op) (k : Nat)
    (hw : well_nested 0 ops = true) :
    (open_level_cursors (PriorityBranchingPropagator.new verbose) [] ops).length
      = host_depth 0 ops ∧
    (1 ≤ k → k < host_depth 0 ops →
      (open_level_cursors (PriorityBranchingPropagator.new verbose) [] ops)[k - 1]? =
        some (run (PriorityBranchingPropagator.new verbose)
          (ops ++ [.backtrack k])).branch_index) ∧
    (k = 0 → 0 < host_depth 0 ops →
      (run (PriorityBranchingPropagator.new verbose) (ops ++ [.backtrack k])).branch_index
        = 0) ∧
    (k = host_depth 0 ops →
      (run (PriorityBranchingPropagator.new verbose) (ops ++ [.backtrack k])).branch_index
        = (run (PriorityBranchingPropagator.new verbose) ops).branch_index) := by
  have hlen := run_decision_stack_length ops 0 (PriorityBranchingPropagator.new verbose) rfl hw
  have hrec := run_decision_stack_eq_record ops (PriorityBranchingPropagator.new verbose)
  have hnew : (PriorityBranchingPropagator.new verbose).decision_stack = [] := rfl
  rw [hnew] at hrec
  rw [← hrec, run_append]
  generalize run (PriorityBranchingPropagator.new verbose) ops = t at hlen ⊢
  rw [← hlen]
  refine ⟨rfl, ?_, ?_, ?_⟩
  · intro h1 hk
    have hk1 : k - 1 < t.decision_stack.length := by omega
    simp only [run, List.foldl_cons, List.foldl_nil, step, notify_backtrack, hk, if_true]
    have hpos : k > 0 := h1
    simp only [hpos, if_true]
    rw [List.getD_eq_getElem _ _ hk1, List.getElem?_eq_getElem hk1]
  · intro h0 hk
    subst h0
    simp [run, step, notify_backtrack, hk]
  · intro hk
    simp [run, step, notify_backtrack, hk]

/-- C3 (amended) on the sequence of the counterexample, at `k = 1`. -/
theorem C3_backtrack_restores_recorded_cursor_witness :
    well_nested 0 [.set_list [1, 2, 3], .decide, .new_level, .decide, .new_level,
      .decide, .new_level] = true ∧
    (open_level_cursors (PriorityBranchingPropagator.new false) []
      [.set_list [1, 2, 3], .decide, .new_level, .decide, .new_level,
        .decide, .new_level])[1 - 1]? =
      some (run (PriorityBranchingPropagator.new false)
        ([.set_list [1, 2, 3], .decide, .new_level, .decide, .new_level,
          .decide, .new_level] ++ [.backtrack 1])).branch_index :=
  ⟨by decide,
   (C3_backtrack_restores_recorded_cursor false
      [.set_list [1, 2, 3], .decide, .new_level, .decide, .new_level, .decide, .new_level]
      1 (by decide)).2.1 (by decide) (by decide)⟩

/-- C4 fails as stated at `level = d`: level 1 is entered with the cursor at 0 and
two literals are decided; the stack is `[0]` (so `d = 1`), and
`notify_backtrack(1)` leaves the cursor at 2 instead of the checkpoint 0. -/
theorem C4_counterexample :
    (run (PriorityBranchingPropagator.new false)
      [.set_list [1, 2, 3], .new_level, .decide, .decide]).decision_stack = [0] ∧
    (notify_backtrack (run (PriorityBranchingPropagator.new false)
      [.set_list [1, 2, 3], .new_level, .decide, .decide]) 1).branch_index = 2 ∧
    ¬ ((run (PriorityBranchingPropagator.new false)
      [.set_list [1, 2, 3], .new_level, .decide, .decide]).decision_stack[1 - 1]? =
        some (notify_backtrack (run (PriorityBranchingPropagator.new false)
          [.set_list [1, 2, 3], .new_level, .decide, .decide]) 1).branch_index) := by
  decide

/-- C4 (amended): for every state with a checkpoint stack of length `d`: for every
level with `1 ≤ level < d`, `notify_backtrack(level)` sets the cursor to the
`level`-th checkpoint (1-based), the value pushed when decision level `level` was
entered; and `notify_backtrack(d)` leaves the cursor unchanged, whatever `d` is. -/
theorem C4_backtrack_restores_checkpoint (s : PriorityBranchingPropagator) :
    (∀ level : Nat, 1 ≤ level → level < s.decision_stack.length →
      s.decision_stack[level - 1]? = some (notify_backtrack s level).branch_index) ∧
    (notify_backtrack s s.decision_stack.length).branch_index = s.branch_index := by
  constructor
  · intro level h1 hlt
    have hk1 : level - 1 < s.decision_stack.length := by omega
    have hpos : level > 0 := h1
    simp only [notify_backtrack, hlt, hpos, if_true]
    rw [List.getD_eq_getElem _ _ hk1, List.getElem?_eq_getElem hk1]
  · simp [notify_backtrack]

/-- C4 (amended) at a stack `[1, 2, 3]` and level 2, where the cursor becomes 2,
and at the stack `[0]` with the cursor at 2 (so `d = 1`), where
`notify_backtrack(1)` leaves the cursor at 2. -/
theorem C4_backtrack_restores_checkpoint_witness :
    (1 ≤ 2 ∧ 2 < (run (PriorityBranchingPropagator.new false)
      [.set_list [1, 2, 3], .decide, .new_level, .decide, .new_level,
        .decide, .new_level]).decision_stack.length) ∧
    (run (PriorityBranchingPropagator.new false)
      [.set_list [1, 2, 3], .decide, .new_level, .decide, .new_level,
        .decide, .new_level]).decision_stack[2 - 1]? =
      some (notify_backtrack (run (PriorityBranchingPropagator.new false)
        [.set_list [1, 2, 3], .decide, .new_level, .decide, .new_level,
          .decide, .new_level]) 2).branch_index ∧
    (notify_backtrack (run (PriorityBranchingPropagator.new false)
      [.set_list [1, 2, 3], .new_level, .decide, .decide]) 1).branch_index = 2 :=
  ⟨by decide,
   (C4_backtrack_restores_checkpoint (run (PriorityBranchingPropagator.new false)
      [.set_list [1, 2, 3], .decide, .new_level, .decide, .new_level, .decide, .new_level])).1
      2 (by decide) (by decide),
   ((C4_backtrack_restores_checkpoint (run (PriorityBranchingPropagator.new false)
      [.set_list [1, 2, 3], .new_level, .decide, .decide])).2).trans (by decide)⟩

/-- C5 fails as stated: variable 1 is reported assigned at depth 0; `5` is decided
and level 1 entered; the next `cb_decide()` skips the entry `1` and returns `0`;
the host enters level 2 on a variable of its own and then backtracks to level 1.
Variable 1 is still assigned for the host, but the assigned set was cleared and
the cursor is back at 1, so the next `cb_decide()` returns `1`. -/
theorem C5_counterexample :
    well_nested 0 [.set_list [5, 1], .assign [1], .decide, .new_level, .assign [5],
      .decide, .new_level, .assign [7], .backtrack 1] = true ∧
    (cb_decide (run (PriorityBranchingPropagator.new false)
      [.set_list [5, 1], .assign [1], .decide, .new_level, .assign [5]])).1 = 0 ∧
    (1 : Int) ∉ (run (PriorityBranchingPropagator.new false)
      [.set_list [5, 1], .assign [1], .decide, .new_level, .assign [5],
        .decide, .new_level, .assign [7], .backtrack 1]).assigned_vars ∧
    ¬ ((cb_decide (run (PriorityBranchingPropagator.new false)
      [.set_list [5, 1], .assign [1], .decide, .new_level, .assign [5],
        .decide, .new_level, .assign [7], .backtrack 1])).1 ≠ 1) := by
  decide

/-- While a variable `v > 0` is in the assigned set, no `cb_decide()` of a forward
run (any mix of `cb_decide`, `notify_assignment` and `notify_new_decision_level`)
returns `v` or `-v`. -/
theorem decide_results_skip_assigned (ops : List Op) (s : PriorityBranchingPropagator)
    (v : Int) (hv : 0 < v) (hin : v ∈ s.assigned_vars) (hf : forward_run ops = true) :
    v ∉ decide_results s ops ∧ -v ∉ decide_results s ops := by
  induction ops generalizing s with
  | nil => simp [decide_results]
  | cons op ops ih =>
    cases op with
    | load file => simp [forward_run] at hf
    | set_list vars => simp [forward_run] at hf
    | clear => simp [forward_run] at hf
    | backtrack k => simp [forward_run] at hf
    | assign lits =>
      exact ih (step s (.assign lits))
        ((mem_notify_assignment s lits v).mpr (Or.inl hin)) hf
    | new_level => exact ih (step s .new_level) hin hf
    | decide =>
      have hin2 : v ∈ (step s .decide).assigned_vars := by
        show v ∈ (cb_decide s).2.assigned_vars
        rw [cb_decide_assigned_vars]; exact hin
      have hrec := ih (step s .decide) hin2 hf
      have hres := cb_decide_result s
      simp only [decide_results, List.mem_cons, not_or]
      refine ⟨⟨?_, hrec.1⟩, ⟨?_, hrec.2⟩⟩
      · intro e
        rcases hres with h0 | h
        · omega
        · rw [← e, abs_of_pos v hv] at h; exact h hin
      · intro e
        rcases hres with h0 | h
        · omega
        · rw [← e, abs_neg_of_pos v hv] at h; exact h hin

/-- C5 (amended): once a variable `v > 0` has been reported by `notify_assignment`
(as `v` or `-v`), in whatever state, no `cb_decide()` returns `v` or `-v` for as
long as only `cb_decide`, `notify_assignment` and `notify_new_decision_level`
follow, in any number and order.  `notify_backtrack(k)`, however, empties the
assigned set whatever the host still considers assigned, so right after it a
`cb_decide()` with the cursor inside the list returns the entry at the restored
cursor without skipping anything. -/
theorem C5_backtrack_forgets_assigned (s : PriorityBranchingPropagator) (k : Nat) :
    (notify_backtrack s k).assigned_vars = ∅ ∧
    ((notify_backtrack s k).branch_index < (notify_backtrack s k).branch_on_list.length →
      (notify_backtrack s k).branch_on_list[(notify_backtrack s k).branch_index]? =
        some (cb_decide (notify_backtrack s k)).1) ∧
    ∀ (t : PriorityBranchingPropagator) (lits : List Int) (v : Int) (ops : List Op),
      0 < v → (v ∈ lits ∨ -v ∈ lits) → forward_run ops = true →
      v ∉ decide_results (notify_assignment t lits) ops ∧
      -v ∉ decide_results (notify_assignment t lits) ops := by
  have he : (notify_backtrack s k).assigned_vars = ∅ := by
    unfold notify_backtrack
    simp only
    split <;> rfl
  refine ⟨he, ?_, ?_⟩
  · intro hlt
    rw [cb_decide_of_empty _ he hlt, List.getD_eq_getElem _ _ hlt,
      List.getElem?_eq_getElem hlt]
  · intro t lits v ops hv hmem hf
    have hin : v ∈ (notify_assignment t lits).assigned_vars := by
      rw [mem_notify_assignment]
      right
      rcases hmem with h | h
      · exact ⟨v, h, abs_of_pos v hv⟩
      · exact ⟨-v, h, abs_neg_of_pos v hv⟩
    exact decide_results_skip_assigned ops _ v hv hin hf

/-- C5 (amended) on the trace of the counterexample with the list
`[5, 1, -1, 2, 1, 3]`: the host reports variable 1 again after the backtrack, and
in the run that follows (a decision, a new level, further assignments, three more
decisions) the literals returned are `2, 3, 0, 0`, never `1` or `-1`. -/
theorem C5_backtrack_forgets_assigned_witness :
    ((0 : Int) < 1 ∧ ((1 : Int) ∈ [-1] ∨ (-1 : Int) ∈ [-1]) ∧
      forward_run [.decide, .new_level, .assign [2], .decide, .assign [3, 9], .decide,
        .new_level, .decide] = true) ∧
    decide_results (notify_assignment (notify_backtrack
        (run (PriorityBranchingPropagator.new false)
          [.set_list [5, 1, -1, 2, 1, 3], .assign [1], .decide, .new_level, .assign [5],
            .decide, .new_level, .assign [2]]) 1) [-1])
      [.decide, .new_level, .assign [2], .decide, .assign [3, 9], .decide,
        .new_level, .decide] = [2, 3, 0, 0] ∧
    (1 : Int) ∉ decide_results (notify_assignment (notify_backtrack
        (run (PriorityBranchingPropagator.new false)
          [.set_list [5, 1, -1, 2, 1, 3], .assign [1], .decide, .new_level, .assign [5],
            .decide, .new_level, .assign [2]]) 1) [-1])
      [.decide, .new_level, .assign [2], .decide, .assign [3, 9], .decide,
        .new_level, .decide] ∧
    (-1 : Int) ∉ decide_results (notify_assignment (notify_backtrack
        (run (PriorityBranchingPropagator.new false)
          [.set_list [5, 1, -1, 2, 1, 3], .assign [1], .decide, .new_level, .assign [5],
            .decide, .new_level, .assign [2]]) 1) [-1])
      [.decide, .new_level, .assign [2], .decide, .assign [3, 9], .decide,
        .new_level, .decide] :=
  ⟨by decide, by decide,
   (C5_backtrack_forgets_assigned
      (run (PriorityBranchingPropagator.new false)
        [.set_list [5, 1, -1, 2, 1, 3], .assign [1], .decide, .new_level, .assign [5],
          .decide, .new_level, .assign [2]]) 1).2.2
      (notify_backtrack
        (run (PriorityBranchingPropagator.new false)
          [.set_list [5, 1, -1, 2, 1, 3], .assign [1], .decide, .new_level, .assign [5],
            .decide, .new_level, .assign [2]]) 1)
      [-1] 1
      [.decide, .new_level, .assign [2], .decide, .assign [3, 9], .decide,
        .new_level, .decide] (by decide) (by decide) (by decide)⟩

/-! ## Invariants -/

/-- C6 fails as stated: `[1]` is installed, `1` decided, two levels entered (the
stack is `[1, 1]`), then the list is cleared, which resets the cursor but keeps
the stack; `notify_backtrack(1)` restores the cursor to 1, beyond the end of the
now empty list. -/
theorem C6_counterexample :
    well_nested 0 [.set_list [1], .decide, .new_level, .new_level, .clear, .backtrack 1]
      = true ∧
    (run (PriorityBranchingPropagator.new false)
      [.set_list [1], .decide, .new_level, .new_level, .clear, .backtrack 1]).branch_index
      = 1 ∧
    (run (PriorityBranchingPropagator.new false)
      [.set_list [1], .decide, .new_level, .new_level, .clear, .backtrack 1]).branch_on_list
      = [] ∧
    ¬ ((run (PriorityBranchingPropagator.new false)
      [.set_list [1], .decide, .new_level, .new_level, .clear, .backtrack 1]).branch_index ≤
      (run (PriorityBranchingPropagator.new false)
      [.set_list [1], .decide, .new_level, .new_level, .clear,
        .backtrack 1]).branch_on_list.length) := by
  decide

/-- C6 (amended): in every state reachable from a freshly constructed module by a
well-nested sequence of public operations in which the list is loaded, set or
cleared only while the decision depth is 0, the cursor is at most the length of
the list. -/
theorem C6_cursor_within_list (verbose : Bool) (ops : List Op)
    (hw : well_nested 0 ops = true) (hr : reload_only_at_root 0 ops = true) :
    0 ≤ (run (PriorityBranchingPropagator.new verbose) ops).branch_index ∧
    (run (PriorityBranchingPropagator.new verbose) ops).branch_index ≤
      (run (PriorityBranchingPropagator.new verbose) ops).branch_on_list.length :=
  ⟨Nat.zero_le _,
   run_cursor_bound ops 0 (PriorityBranchingPropagator.new verbose) rfl (Nat.le_refl _)
    (by intro x hx; simp [PriorityBranchingPropagator.new] at hx) hw hr⟩

/-- C6 (amended) on a search that loads `[5, 1]` at the root, goes two levels deep,
backtracks to level 1, then to the root, and reloads there. -/
theorem C6_cursor_within_list_witness :
    (well_nested 0 [.load (some "5\n1\n".toList), .assign [1], .decide, .new_level,
        .decide, .new_level, .backtrack 1, .decide, .backtrack 0, .set_list [2]] = true ∧
     reload_only_at_root 0 [.load (some "5\n1\n".toList), .assign [1], .decide, .new_level,
        .decide, .new_level, .backtrack 1, .decide, .backtrack 0, .set_list [2]] = true) ∧
    (run (PriorityBranchingPropagator.new false)
      [.load (some "5\n1\n".toList), .assign [1], .decide, .new_level,
        .decide, .new_level, .backtrack 1, .decide, .backtrack 0,
        .set_list [2]]).branch_index ≤
    (run (PriorityBranchingPropagator.new false)
      [.load (some "5\n1\n".toList), .assign [1], .decide, .new_level,
        .decide, .new_level, .backtrack 1, .decide, .backtrack 0,
        .set_list [2]]).branch_on_list.length :=
  ⟨by decide,
   (C6_cursor_within_list false
      [.load (some "5\n1\n".toList), .assign [1], .decide, .new_level,
        .decide, .new_level, .backtrack 1, .decide, .backtrack 0, .set_list [2]]
      (by decide) (by decide)).2⟩

/-- C7: starting from a freshly constructed module, after every well-nested
sequence of operations the length of `decision_stack` equals the decision depth
last reported by the host, and a further `notify_backtrack(k)` with `k` at most
that depth leaves the stack equal to its own first `k` elements, of length `k`. -/
theorem C7_stack_length_is_depth (verbose : Bool) (ops : List Op)
    (hw : well_nested 0 ops = true) :
    (run (PriorityBranchingPropagator.new verbose) ops).decision_stack.length
      = host_depth 0 ops ∧
    ∀ k, k ≤ host_depth 0 ops →
      (notify_backtrack (run (PriorityBranchingPropagator.new verbose) ops) k).decision_stack
        = (run (PriorityBranchingPropagator.new verbose) ops).decision_stack.take k ∧
      (notify_backtrack (run (PriorityBranchingPropagator.new verbose) ops)
        k).decision_stack.length = k := by
  have hlen := run_decision_stack_length ops 0 (PriorityBranchingPropagator.new verbose) rfl hw
  refine ⟨hlen, ?_⟩
  intro k hk
  rw [notify_backtrack_stack]
  refine ⟨rfl, ?_⟩
  rw [List.length_take]
  omega

/-- C7 on a search that goes three levels deep and backtracks to level 1. -/
theorem C7_stack_length_is_depth_witness :
    well_nested 0 [.set_list [1, 2, 3], .decide, .new_level, .assign [1], .decide,
      .new_level, .decide, .new_level, .backtrack 1, .decide] = true ∧
    (run (PriorityBranchingPropagator.new false)
      [.set_list [1, 2, 3], .decide, .new_level, .assign [1], .decide,
        .new_level, .decide, .new_level, .backtrack 1, .decide]).decision_stack.length
      = host_depth 0 [.set_list [1, 2, 3], .decide, .new_level, .assign [1], .decide,
        .new_level, .decide, .new_level, .backtrack 1, .decide] :=
  ⟨by decide,
   (C7_stack_length_is_depth false
      [.set_list [1, 2, 3], .decide, .new_level, .assign [1], .decide,
        .new_level, .decide, .new_level, .backtrack 1, .decide] (by decide)).1⟩

/-! ## Reset on (re)load and clear -/

/-- C8 fails as stated: after `1` is decided and level 1 entered the checkpoint
stack is `[1]`, and it is still `[1]` after `set_branch_on_list`, after
`clear_branch_on_list` and after a successful `load_branch_list_from_file`. -/
theorem C8_counterexample :
    (set_branch_on_list (run (PriorityBranchingPropagator.new false)
      [.set_list [1, 2], .decide, .new_level]) [3]).decision_stack = [1] ∧
    (clear_branch_on_list (run (PriorityBranchingPropagator.new false)
      [.set_list [1, 2], .decide, .new_level])).decision_stack = [1] ∧
    (load_branch_list_from_file (run (PriorityBranchingPropagator.new false)
      [.set_list [1, 2], .decide, .new_level]) (some "3\n".toList)).ok = true ∧
    (load_branch_list_from_file (run (PriorityBranchingPropagator.new false)
      [.set_list [1, 2], .decide, .new_level]) (some "3\n".toList)).state.decision_stack
      = [1] ∧
    ¬ ((set_branch_on_list (run (PriorityBranchingPropagator.new false)
      [.set_list [1, 2], .decide, .new_level]) [3]).decision_stack = []) := by
  decide

/-- C8 (amended): for every prior state, after `load_branch_list_from_file` on a
file that opens (successful or not), after `set_branch_on_list` and after
`clear_branch_on_list`, the cursor is 0 and the assigned set is empty; the
checkpoint stack is what it was before. -/
theorem C8_reload_resets_cursor_and_assigned (s : PriorityBranchingPropagator) :
    (∀ text : List Char,
      (load_branch_list_from_file s (some text)).state.branch_index = 0 ∧
      (load_branch_list_from_file s (some text)).state.assigned_vars = ∅ ∧
      (load_branch_list_from_file s (some text)).state.decision_stack = s.decision_stack) ∧
    (∀ vars : List Int,
      (set_branch_on_list s vars).branch_index = 0 ∧
      (set_branch_on_list s vars).assigned_vars = ∅ ∧
      (set_branch_on_list s vars).decision_stack = s.decision_stack) ∧
    ((clear_branch_on_list s).branch_index = 0 ∧
      (clear_branch_on_list s).assigned_vars = ∅ ∧
      (clear_branch_on_list s).decision_stack = s.decision_stack) :=
  ⟨fun _ => ⟨rfl, rfl, rfl⟩, fun _ => ⟨rfl, rfl, rfl⟩, ⟨rfl, rfl, rfl⟩⟩

/-! ## The loader -/

/-- C9 fails as stated: loading `"# comment\n\n0\nfoo\n5\n-7\n"` emits two
warnings, not three; the comment line and the blank line are both skipped
silently. -/
theorem C9_counterexample :
    ((load_branch_list_from_file (PriorityBranchingPropagator.new false)
        (some "# comment\n\n0\nfoo\n5\n-7\n".toList)).cerr.filter
          Diagnostic.is_warning).length = 2 ∧
    ¬ (((load_branch_list_from_file (PriorityBranchingPropagator.new false)
        (some "# comment\n\n0\nfoo\n5\n-7\n".toList)).cerr.filter
          Diagnostic.is_warning).length = 3) := by
  decide

/-- C9 (amended): for every prior state, loading the source text
`"# comment\n\n0\nfoo\n5\n-7\n"` succeeds, produces exactly the list `[5, -7]` and
emits exactly two warnings: `Variable 0 is invalid` for line 3 and
`Invalid integer` for line 4 (`foo`); neither the comment line nor the blank line
is a warning. -/
theorem C9_loader_example (s : PriorityBranchingPropagator) :
    (load_branch_list_from_file s (some "# comment\n\n0\nfoo\n5\n-7\n".toList)).ok = true ∧
    (load_branch_list_from_file s
      (some "# comment\n\n0\nfoo\n5\n-7\n".toList)).state.branch_on_list = [5, -7] ∧
    (load_branch_list_from_file s (some "# comment\n\n0\nfoo\n5\n-7\n".toList)).cerr =
      [Diagnostic.variable_zero 3, Diagnostic.invalid_integer 4 "foo".toList] ∧
    ((load_branch_list_from_file s (some "# comment\n\n0\nfoo\n5\n-7\n".toList)).cerr.filter
      Diagnostic.is_warning).length = 2 := by
  have h : load_lines (getlines "# comment\n\n0\nfoo\n5\n-7\n".toList) =
      { branch_on_list := [5, -7], line_num := 6,
        cerr := [Diagnostic.variable_zero 3, Diagnostic.invalid_integer 4 "foo".toList] } := by
    decide
  simp only [load_branch_list_from_file]
  rw [h]
  exact ⟨by decide, rfl, rfl, by decide⟩

/-! ## Skipping in the decision callback -/

/-- When the entry at `j` is the first one from the cursor on whose variable is
not assigned, `cb_decide` returns it and leaves the cursor behind it. -/
theorem cb_decide_first_unassigned (s : PriorityBranchingPropagator) (j : Nat)
    (hcj : s.branch_index ≤ j) (hj : j < s.branch_on_list.length)
    (hun : abs (s.branch_on_list.getD j 0) ∉ s.assigned_vars)
    (hsk : ∀ i, s.branch_index ≤ i → i < j →
      abs (s.branch_on_list.getD i 0) ∈ s.assigned_vars) :
    cb_decide s = (s.branch_on_list.getD j 0, { s with branch_index := j + 1 }) := by
  generalize hn : j - s.branch_index = n
  induction n generalizing s with
  | zero =>
    have e : s.branch_index = j := by omega
    rw [cb_decide_unfold]
    simp only [e, hj, if_true]
    rw [if_pos hun]
  | succ n ih =>
    have hlt : s.branch_index < s.branch_on_list.length := by omega
    have hin := hsk s.branch_index (Nat.le_refl _) (by omega)
    rw [cb_decide_unfold]
    simp only [hlt, if_true]
    rw [if_neg (by simpa using hin)]
    rw [ih { s with branch_index := s.branch_index + 1 } (by simp; omega) hj hun
      (fun i hi hij => hsk i (by simp at hi; omega) hij) (by simp; omega)]

/-- When every entry from the cursor on has its variable assigned, `cb_decide`
returns `0` and leaves the cursor at the end of the list. -/
theorem cb_decide_all_assigned (s : PriorityBranchingPropagator)
    (hc : s.branch_index ≤ s.branch_on_list.length)
    (hsk : ∀ i, s.branch_index ≤ i → i < s.branch_on_list.length →
      abs (s.branch_on_list.getD i 0) ∈ s.assigned_vars) :
    cb_decide s = (0, { s with branch_index := s.branch_on_list.length }) := by
  generalize hn : s.branch_on_list.length - s.branch_index = n
  induction n generalizing s with
  | zero =>
    have e : s.branch_on_list.length = s.branch_index := by omega
    rw [cb_decide_of_exhausted s (by omega), e]
  | succ n ih =>
    have hlt : s.branch_index < s.branch_on_list.length := by omega
    have hin := hsk s.branch_index (Nat.le_refl _) hlt
    rw [cb_decide_unfold]
    simp only [hlt, if_true]
    rw [if_neg (by simpa using hin)]
    rw [ih { s with branch_index := s.branch_index + 1 } (by simp; omega)
      (fun i hi hil => hsk i (by simp at hi; omega) hil) (by simp; omega)]

/-- When `cb_decide` returns `0` on a list without a zero entry, the scan found
every entry from the cursor on assigned. -/
theorem cb_decide_zero_of_nonzero_list (s : PriorityBranchingPropagator)
    (hnz : ∀ x ∈ s.branch_on_list, x ≠ 0) (h0 : (cb_decide s).1 = 0) :
    s.branch_on_list.length ≤ (cb_decide s).2.branch_index ∧
    ∀ i, s.branch_index ≤ i → i < s.branch_on_list.length →
      abs (s.branch_on_list.getD i 0) ∈ s.assigned_vars := by
  generalize hn : s.branch_on_list.length - s.branch_index = n
  induction n generalizing s with
  | zero =>
    rw [cb_decide_of_exhausted s (by omega)]
    exact ⟨by simp; omega, fun i hi hil => by omega⟩
  | succ n ih =>
    have hlt : s.branch_index < s.branch_on_list.length := by omega
    rw [cb_decide_unfold] at h0 ⊢
    simp only [hlt, if_true] at h0 ⊢
    by_cases hun : abs (s.branch_on_list.getD s.branch_index 0) ∉ s.assigned_vars
    · rw [if_pos hun] at h0
      simp only at h0
      rw [List.getD_eq_getElem _ _ hlt] at h0
      exact absurd h0 (hnz _ (List.getElem_mem _))
    · rw [if_neg hun] at h0 ⊢
      have h := ih { s with branch_index := s.branch_index + 1 } hnz h0 (by simp; omega)
      refine ⟨h.1, ?_⟩
      intro i hi hil
      by_cases e : i = s.branch_index
      · rw [e]; simpa using hun
      · exact h.2 i (by simp; omega) hil

/-- The position reported by `cb_decide_index_loop` is the position of the literal
that `cb_decide_loop` returns with the same bound. -/
theorem cb_decide_index_loop_some (fuel : Nat) (s : PriorityBranchingPropagator) (j : Nat)
    (h : cb_decide_index_loop fuel s = some j) :
    s.branch_index ≤ j ∧ j < s.branch_on_list.length ∧
    cb_decide_loop fuel s = (s.branch_on_list.getD j 0, { s with branch_index := j + 1 }) := by
  induction fuel generalizing s with
  | zero => simp [cb_decide_index_loop] at h
  | succ n ih =>
    simp only [cb_decide_index_loop] at h
    simp only [cb_decide_loop]
    by_cases hlt : s.branch_index < s.branch_on_list.length
    · simp only [hlt, if_true] at h ⊢
      by_cases hun : abs (s.branch_on_list.getD s.branch_index 0) ∉ s.assigned_vars
      · rw [if_pos hun] at h ⊢
        simp only [Option.some.injEq] at h
        subst h
        exact ⟨Nat.le_refl _, hlt, rfl⟩
      · rw [if_neg hun] at h ⊢
        have h2 := ih { s with branch_index := s.branch_index + 1 } h
        exact ⟨by have := h2.1; simp at this; omega, h2.2.1, h2.2.2⟩
    · simp [hlt] at h

/-- The position reported by `cb_decide_index` is the position of the literal that
`cb_decide` returns, and the cursor is left right behind it. -/
theorem cb_decide_index_some (s : PriorityBranchingPropagator) (j : Nat)
    (h : cb_decide_index s = some j) :
    s.branch_index ≤ j ∧ j < s.branch_on_list.length ∧
    cb_decide s = (s.branch_on_list.getD j 0, { s with branch_index := j + 1 }) :=
  cb_decide_index_loop_some _ s j h

/-- In a forward run the cursor never moves back and the offered positions are
strictly increasing, all at or after the initial cursor. -/
theorem offered_positions_increasing (ops : List Op) (s : PriorityBranchingPropagator)
    (hf : forward_run ops = true) :
    s.branch_index ≤ (run s ops).branch_index ∧
    (∀ p ∈ offered_positions s ops, s.branch_index ≤ p) ∧
    (offered_positions s ops).Pairwise (· < ·) := by
  induction ops generalizing s with
  | nil => exact ⟨Nat.le_refl _, by simp [offered_positions], by simp [offered_positions]⟩
  | cons op ops ih =>
    rw [run_cons]
    cases op with
    | load file => simp [forward_run] at hf
    | set_list vars => simp [forward_run] at hf
    | clear => simp [forward_run] at hf
    | backtrack k => simp [forward_run] at hf
    | assign lits => exact ih (step s (.assign lits)) hf
    | new_level => exact ih (step s .new_level) hf
    | decide =>
      have hrec := ih (step s .decide) hf
      have hmono : s.branch_index ≤ (step s .decide).branch_index :=
        (cb_decide_index_bounds s).1
      simp only [offered_positions]
      cases hi : cb_decide_index s with
      | none =>
        simp only [Option.toList, List.nil_append]
        exact ⟨by omega, fun p hp => Nat.le_trans hmono (hrec.2.1 p hp), hrec.2.2⟩
      | some j =>
        obtain ⟨hj1, _, hj3⟩ := cb_decide_index_some s j hi
        have hnext : (step s .decide).branch_index = j + 1 := by
          show (cb_decide s).2.branch_index = j + 1
          rw [hj3]
        simp only [Option.toList, List.singleton_append, List.mem_cons, List.pairwise_cons]
        refine ⟨by omega, ?_, ?_, hrec.2.2⟩
        · rintro p (hp | hp)
          · omega
          · have := hrec.2.1 p hp; omega
        · intro p hp
          have := hrec.2.1 p hp; omega

/-! ## More facts about the loader -/

/-- The extraction when the text after the sign starts with a run `r` of digits
that is followed by something that is not a digit. -/
theorem extract_int_of_split (x : List Char) (b : Bool) (r rest : List Char) (w : Int)
    (hdw : x.dropWhile isspace = x) (hsg : split_sign x = (b, r ++ rest))
    (hne : r ≠ []) (hall : ∀ c ∈ r, isdigit c = true)
    (hrest : ∀ c, rest.head? = some c → isdigit c = false)
    (hw : (if b = true then -(digits_value r : Int) else (digits_value r : Int)) = w)
    (hr : INT_MIN ≤ w ∧ w ≤ INT_MAX) :
    extract_int x = some w := by
  have htr : rest.takeWhile isdigit = [] := by
    cases rest with
    | nil => rfl
    | cons c cs => simp [List.takeWhile, hrest c rfl]
  have htw : (r ++ rest).takeWhile isdigit = r := by
    rw [List.takeWhile_append_of_pos hall, htr, List.append_nil]
  unfold extract_int
  simp only [hdw, hsg, htw, hne, if_false, hw, hr, and_self, if_true]

theorem not_sign_of_isdigit (c : Char) (h : isdigit c = true) : c ≠ '-' ∧ c ≠ '+' := by
  constructor <;> (intro hc; subst hc; revert h; decide)

theorem not_comment_of_isdigit (c : Char) (h : isdigit c = true) : c ≠ '#' ∧ c ≠ 'c' := by
  constructor <;> (intro hc; subst hc; revert h; decide)

/-- A text that is an integer in its entirety starts with a sign or a digit. -/
theorem whole_integer_head (t : List Char) (v : Int) (h : whole_integer t = some v) :
    ∃ c cs, t = c :: cs ∧ (c = '-' ∨ c = '+' ∨ isdigit c = true) := by
  unfold whole_integer at h
  simp only at h
  split at h
  · rename_i hds
    rcases split_sign_cases t with ⟨r, rfl, _⟩ | ⟨r, rfl, _⟩ | hsg
    · exact ⟨_, _, rfl, Or.inl rfl⟩
    · exact ⟨_, _, rfl, Or.inr (Or.inl rfl)⟩
    · rw [hsg] at hds
      cases t with
      | nil => exact absurd rfl hds.1
      | cons c cs =>
        exact ⟨c, cs, rfl, Or.inr (Or.inr
          ((List.all_eq_true.mp hds.2) c (List.mem_cons_self _ _)))⟩
  · exact absurd h (by simp)

/-- A text that starts with a whole integer followed by something that is not a
digit is read by `extract_int` as that integer. -/
theorem extract_int_of_integer_prefix (t rest : List Char) (v : Int)
    (h : whole_integer t = some v) (hr : INT_MIN ≤ v ∧ v ≤ INT_MAX)
    (hrest : ∀ c, rest.head? = some c → isdigit c = false) :
    extract_int (t ++ rest) = some v := by
  unfold whole_integer at h
  simp only at h
  split at h
  · rename_i hds
    obtain ⟨hne, hall⟩ := hds
    simp only [Option.some.injEq] at h
    have hall2 : ∀ c ∈ (split_sign t).2, isdigit c = true := List.all_eq_true.mp hall
    rcases split_sign_cases t with ⟨r, rfl, hsg⟩ | ⟨r, rfl, hsg⟩ | hsg
    · rw [hsg] at hne hall2 h
      exact extract_int_of_split ('-' :: r ++ rest) true r rest v rfl rfl hne hall2 hrest
        (by simpa using h) hr
    · rw [hsg] at hne hall2 h
      exact extract_int_of_split ('+' :: r ++ rest) false r rest v rfl rfl hne hall2 hrest
        (by simpa using h) hr
    · rw [hsg] at hne hall2 h
      cases t with
      | nil => exact absurd rfl hne
      | cons c cs =>
        have hc : isdigit c = true := hall2 c (List.mem_cons_self _ _)
        have hdw : (c :: cs ++ rest).dropWhile isspace = c :: cs ++ rest := by
          simp [List.dropWhile, not_isspace_of_isdigit c hc]
        have hsg2 : split_sign (c :: cs ++ rest) = (false, c :: cs ++ rest) := by
          rcases split_sign_cases (c :: cs ++ rest) with ⟨r, hr1, _⟩ | ⟨r, hr1, _⟩ | h3
          · simp only [List.cons_append, List.cons.injEq] at hr1
            exact absurd hr1.1 (not_sign_of_isdigit c hc).1
          · simp only [List.cons_append, List.cons.injEq] at hr1
            exact absurd hr1.1 (not_sign_of_isdigit c hc).2
          · exact h3
        exact extract_int_of_split (c :: cs ++ rest) false (c :: cs) rest v hdw hsg2 hne hall2
          hrest (by simpa using h) hr
  · exact absurd h (by simp)

/-- A line whose trimmed text starts with a whole non-zero integer followed by
something that is not a digit has that integer as its entry. -/
theorem leading_integer_entry_of_prefix (line t rest : List Char) (v : Int)
    (htrim : trim line = t ++ rest) (h : whole_integer t = some v)
    (hr : INT_MIN ≤ v ∧ v ≤ INT_MAX) (hv : v ≠ 0)
    (hrest : ∀ c, rest.head? = some c → isdigit c = false) :
    leading_integer_entry line = some v := by
  obtain ⟨c, cs, rfl, hc⟩ := whole_integer_head t v h
  have hnc : ¬ (trim line = [] ∨ (trim line).head? = some '#' ∨
      (trim line).head? = some 'c') := by
    rw [htrim]
    simp only [List.cons_append, List.head?_cons, Option.some.injEq, not_or]
    refine ⟨by simp, ?_, ?_⟩
    · rcases hc with hc | hc | hc
      · rw [hc]; decide
      · rw [hc]; decide
      · exact (not_comment_of_isdigit c hc).1
    · rcases hc with hc | hc | hc
      · rw [hc]; decide
      · rw [hc]; decide
      · exact (not_comment_of_isdigit c hc).2
  unfold leading_integer_entry
  rw [if_neg hnc, htrim, extract_int_of_integer_prefix (c :: cs) rest v h hr hrest]
  simp [hv]

/-- A value read by `extract_int` fits in `int`. -/
theorem extract_int_range (t : List Char) (w : Int) (he : extract_int t = some w) :
    INT_MIN ≤ w ∧ w ≤ INT_MAX := by
  unfold extract_int at he
  simp only at he
  split at he
  · exact absurd he (by simp)
  · split at he <;> split at he <;>
      first
      | (simp only [Option.some.injEq] at he; rw [← he]; assumption)
      | simp at he

/-- An entry of a line is never 0 and fits in `int`. -/
theorem leading_integer_entry_ne_zero (line : List Char) (v : Int)
    (h : leading_integer_entry line = some v) : v ≠ 0 ∧ INT_MIN ≤ v ∧ v ≤ INT_MAX := by
  unfold leading_integer_entry at h
  split at h
  · exact absurd h (by simp)
  · cases he : extract_int (trim line) with
    | none => simp [he] at h
    | some w =>
      simp only [he] at h
      split at h
      · rename_i hw
        simp only [Option.some.injEq] at h
        subst h
        exact ⟨hw, extract_int_range _ _ he⟩
      · exact absurd h (by simp)

/-- The list a load on an opened file produces, by the entries of its lines. -/
theorem load_branch_on_list_eq (s : PriorityBranchingPropagator) (text : List Char) :
    (load_branch_list_from_file s (some text)).state.branch_on_list =
      (getlines text).filterMap leading_integer_entry := by
  show (load_lines (getlines text)).branch_on_list = _
  unfold load_lines
  rw [foldl_load_line_branch_on_list]
  rfl

/-- The result of a load on an opened file says whether the list is non-empty. -/
theorem load_ok_iff (s : PriorityBranchingPropagator) (text : List Char) :
    (load_branch_list_from_file s (some text)).ok = true ↔
      (load_branch_list_from_file s (some text)).state.branch_on_list ≠ [] := by
  show (!(load_lines (getlines text)).branch_on_list.isEmpty) = true ↔
    (load_lines (getlines text)).branch_on_list ≠ []
  cases (load_lines (getlines text)).branch_on_list <;> simp

/-! ## The documented sample list and the result of a load -/

/-- C11: loading the sample branch list of the usage text (a comment line and the
lines `-3`, `1`, `-2`, each followed by blanks and a `#` comment) succeeds and
produces exactly `[-3, 1, -2]`.  More generally, a line whose trimmed text is a
signed non-zero integer fitting in `int`, followed by white space and a `#`
comment, is loaded as that integer. -/
theorem C11_sample_list_loads (s : PriorityBranchingPropagator) :
    (load_branch_list_from_file s (some sample_branch_file)).ok = true ∧
    (load_branch_list_from_file s (some sample_branch_file)).state.branch_on_list
      = [-3, 1, -2] ∧
    (load_branch_list_from_file s (some sample_branch_file)).cerr = [] ∧
    ∀ (line t ws comment : List Char) (v : Int),
      trim line = t ++ (ws ++ '#' :: comment) → whole_integer t = some v →
      INT_MIN ≤ v ∧ v ≤ INT_MAX → v ≠ 0 → (∀ c ∈ ws, isspace c = true) →
      leading_integer_entry line = some v ∧
      ∀ text, getlines text = [line] →
        (load_branch_list_from_file s (some text)).ok = true ∧
        (load_branch_list_from_file s (some text)).state.branch_on_list = [v] := by
  have h : load_lines (getlines sample_branch_file) =
      { branch_on_list := [-3, 1, -2], line_num := 4, cerr := [] } := by
    decide
  refine ⟨?_, ?_, ?_, ?_⟩
  · show (!(load_lines (getlines sample_branch_file)).branch_on_list.isEmpty) = true
    rw [h]; rfl
  · show (load_lines (getlines sample_branch_file)).branch_on_list = _
    rw [h]
  · show (load_lines (getlines sample_branch_file)).cerr = _
    rw [h]
  · intro line t ws comment v htrim hw hr hv hws
    have hrest : ∀ c, (ws ++ '#' :: comment).head? = some c → isdigit c = false := by
      intro c hc
      cases ws with
      | nil =>
        simp only [List.nil_append, List.head?_cons, Option.some.injEq] at hc
        rw [← hc]; decide
      | cons w ws2 =>
        simp only [List.cons_append, List.head?_cons, Option.some.injEq] at hc
        rw [← hc]
        have hsp := hws w (List.mem_cons_self _ _)
        by_contra hd
        have hd2 : isdigit w = true := by simpa using hd
        rw [not_isspace_of_isdigit w hd2] at hsp
        exact absurd hsp (by simp)
    have he := leading_integer_entry_of_prefix line t _ v htrim hw hr hv hrest
    refine ⟨he, ?_⟩
    intro text htext
    have hl : (load_branch_list_from_file s (some text)).state.branch_on_list = [v] := by
      rw [load_branch_on_list_eq, htext]
      simp [List.filterMap_cons, he]
    exact ⟨(load_ok_iff s text).mpr (by rw [hl]; simp), hl⟩

/-- C11 on the line `-3   # comment` of the sample, as a one-line file. -/
theorem C11_sample_list_loads_witness :
    (trim "  -3   # comment".toList = "-3".toList ++ ("   ".toList ++ '#' :: " comment".toList) ∧
     whole_integer "-3".toList = some (-3) ∧
     (INT_MIN ≤ (-3 : Int) ∧ (-3 : Int) ≤ INT_MAX) ∧ (-3 : Int) ≠ 0 ∧
     "   ".toList.all isspace = true ∧
     getlines "  -3   # comment\n".toList = ["  -3   # comment".toList]) ∧
    (load_branch_list_from_file (PriorityBranchingPropagator.new false)
      (some "  -3   # comment\n".toList)).state.branch_on_list = [-3] :=
  ⟨by decide,
   (((C11_sample_list_loads (PriorityBranchingPropagator.new false)).2.2.2
      "  -3   # comment".toList "-3".toList "   ".toList " comment".toList (-3)
      (by decide) (by decide) (by decide) (by decide) (by decide)).2
      "  -3   # comment\n".toList (by decide)).2⟩

/-- C12: `load_branch_list_from_file` returns `false` when the source cannot be
opened; for every source that opens it returns `true` exactly when the resulting
list is not empty, which is exactly when at least one line of the source has a
valid entry, whatever the other lines are. -/
theorem C12_load_result (s : PriorityBranchingPropagator) :
    (load_branch_list_from_file s none).ok = false ∧
    ∀ text : List Char,
      ((load_branch_list_from_file s (some text)).ok = true ↔
        (load_branch_list_from_file s (some text)).state.branch_on_list ≠ []) ∧
      ((load_branch_list_from_file s (some text)).ok = true ↔
        ∃ line ∈ getlines text, ∃ v, leading_integer_entry line = some v) := by
  refine ⟨rfl, ?_⟩
  intro text
  refine ⟨load_ok_iff s text, ?_⟩
  rw [load_ok_iff, load_branch_on_list_eq, Ne, List.filterMap_eq_nil_iff]
  constructor
  · intro h
    by_contra hn
    apply h
    intro a ha
    cases hv : leading_integer_entry a with
    | none => rfl
    | some v => exact absurd ⟨a, ha, v, hv⟩ hn
  · rintro ⟨line, hl, v, hv⟩ h
    rw [h line hl] at hv
    exact absurd hv (by simp)

/-- C13: for every prior state, a load on a source that cannot be opened returns
`false` and leaves the whole object (list, cursor, checkpoint stack, assigned set)
exactly as it was. -/
theorem C13_open_failure_is_atomic (s : PriorityBranchingPropagator) :
    (load_branch_list_from_file s none).ok = false ∧
    (load_branch_list_from_file s none).state = s ∧
    (load_branch_list_from_file s none).state.branch_on_list = s.branch_on_list ∧
    (load_branch_list_from_file s none).state.branch_index = s.branch_index ∧
    (load_branch_list_from_file s none).state.decision_stack = s.decision_stack ∧
    (load_branch_list_from_file s none).state.assigned_vars = s.assigned_vars :=
  ⟨rfl, rfl, rfl, rfl, rfl, rfl⟩

/-- C14 fails as stated: with `[1, 2]` installed, `1` decided and level 1 entered,
a load on a source that cannot be opened returns `false` and keeps the list
`[1, 2]` and the cursor 1; a load on a source without a valid entry returns
`false` and empties the list but keeps the checkpoint stack `[1]`. -/
theorem C14_counterexample :
    (load_branch_list_from_file (run (PriorityBranchingPropagator.new false)
      [.set_list [1, 2], .decide, .new_level]) none).ok = false ∧
    (load_branch_list_from_file (run (PriorityBranchingPropagator.new false)
      [.set_list [1, 2], .decide, .new_level]) none).state.branch_on_list = [1, 2] ∧
    (load_branch_list_from_file (run (PriorityBranchingPropagator.new false)
      [.set_list [1, 2], .decide, .new_level]) none).state.branch_index = 1 ∧
    ¬ ((load_branch_list_from_file (run (PriorityBranchingPropagator.new false)
      [.set_list [1, 2], .decide, .new_level]) none).state.branch_on_list = []) ∧
    (load_branch_list_from_file (run (PriorityBranchingPropagator.new false)
      [.set_list [1, 2], .decide, .new_level]) (some "foo\n".toList)).ok = false ∧
    ¬ ((load_branch_list_from_file (run (PriorityBranchingPropagator.new false)
      [.set_list [1, 2], .decide, .new_level])
        (some "foo\n".toList)).state.decision_stack = []) := by
  decide

/-- C14 (amended): for every prior state, a load that returns `false` on a source
that opens (no valid entry) leaves the list empty, the cursor 0 and the assigned
set empty, and the checkpoint stack as it was; a load on a source that cannot be
opened leaves the object exactly as it was. -/
theorem C14_failed_load_state (s : PriorityBranchingPropagator) :
    (load_branch_list_from_file s none).state = s ∧
    ∀ text : List Char, (load_branch_list_from_file s (some text)).ok = false →
      (load_branch_list_from_file s (some text)).state.branch_on_list = [] ∧
      (load_branch_list_from_file s (some text)).state.branch_index = 0 ∧
      (load_branch_list_from_file s (some text)).state.assigned_vars = ∅ ∧
      (load_branch_list_from_file s (some text)).state.decision_stack = s.decision_stack := by
  refine ⟨rfl, ?_⟩
  intro text hok
  refine ⟨?_, rfl, rfl, rfl⟩
  by_contra hne
  rw [(load_ok_iff s text).mpr hne] at hok
  exact absurd hok (by simp)

/-- C14 (amended) on a source holding only a comment, a zero and a bad line,
loaded over an installed list. -/
theorem C14_failed_load_state_witness :
    (load_branch_list_from_file
      (set_branch_on_list (PriorityBranchingPropagator.new false) [1, 2])
      (some "# none\n0\nfoo\n".toList)).ok = false ∧
    (load_branch_list_from_file
      (set_branch_on_list (PriorityBranchingPropagator.new false) [1, 2])
      (some "# none\n0\nfoo\n".toList)).state.branch_on_list = [] :=
  ⟨by decide,
   ((C14_failed_load_state
      (set_branch_on_list (PriorityBranchingPropagator.new false) [1, 2])).2
      "# none\n0\nfoo\n".toList (by decide)).1⟩

/-- C15: every entry of the list produced by a load is non-zero, for every source
text and prior state.  Hence in every state holding a loaded list, a literal that
`cb_decide()` returns from the list is never `0`, and when `cb_decide()` returns
`0` it is the sentinel: no list position was offered, the cursor is at or beyond
the end and every entry from the old cursor on has its variable assigned. -/
theorem C15_loaded_entries_nonzero (s : PriorityBranchingPropagator) (text : List Char) :
    (∀ x ∈ (load_branch_list_from_file s (some text)).state.branch_on_list, x ≠ 0) ∧
    ∀ t : PriorityBranchingPropagator,
      t.branch_on_list = (load_branch_list_from_file s (some text)).state.branch_on_list →
      (∀ j, cb_decide_index t = some j → (cb_decide t).1 ≠ 0) ∧
      ((cb_decide t).1 = 0 →
        cb_decide_index t = none ∧
        t.branch_on_list.length ≤ (cb_decide t).2.branch_index ∧
        ∀ i, t.branch_index ≤ i → i < t.branch_on_list.length →
          abs (t.branch_on_list.getD i 0) ∈ t.assigned_vars) := by
  have hnz : ∀ x ∈ (load_branch_list_from_file s (some text)).state.branch_on_list,
      x ≠ 0 := by
    intro x hx
    rw [load_branch_on_list_eq, List.mem_filterMap] at hx
    obtain ⟨line, _, hline⟩ := hx
    exact (leading_integer_entry_ne_zero line x hline).1
  refine ⟨hnz, ?_⟩
  intro t ht
  have hnzt : ∀ x ∈ t.branch_on_list, x ≠ 0 := by rw [ht]; exact hnz
  have hsome : ∀ j, cb_decide_index t = some j → (cb_decide t).1 ≠ 0 := by
    intro j hj
    obtain ⟨_, hlt, he⟩ := cb_decide_index_some t j hj
    rw [he]
    simp only
    rw [List.getD_eq_getElem _ _ hlt]
    exact hnzt _ (List.getElem_mem _)
  refine ⟨hsome, ?_⟩
  intro h0
  refine ⟨?_, cb_decide_zero_of_nonzero_list t hnzt h0⟩
  cases hi : cb_decide_index t with
  | none => rfl
  | some j => exact absurd h0 (hsome j hi)

/-- C15 on the list loaded from `"5\n-7\n"` with both variables assigned:
`cb_decide()` returns `0` and no position is offered. -/
theorem C15_loaded_entries_nonzero_witness :
    (cb_decide (notify_assignment (load_branch_list_from_file
      (PriorityBranchingPropagator.new false) (some "5\n-7\n".toList)).state [5, 7])).1 = 0 ∧
    cb_decide_index (notify_assignment (load_branch_list_from_file
      (PriorityBranchingPropagator.new false) (some "5\n-7\n".toList)).state [5, 7]) = none :=
  ⟨by decide,
   (((C15_loaded_entries_nonzero (PriorityBranchingPropagator.new false) "5\n-7\n".toList).2
      (notify_assignment (load_branch_list_from_file
        (PriorityBranchingPropagator.new false) (some "5\n-7\n".toList)).state [5, 7])
      (by decide)).2 (by decide)).1⟩

/-- C16: for every state with the cursor `c` within the list of length `n`:
if `j ≥ c` is the smallest index whose variable is not in the assigned set (every
entry at an index in `[c, j)` has its variable in the set), `cb_decide()` returns
the entry at `j` and leaves the cursor at `j + 1`, changing nothing else; if every
entry from `c` on has its variable in the set, it returns `0` and leaves the
cursor at `n`. -/
theorem C16_decide_skip_semantics (s : PriorityBranchingPropagator)
    (hc : s.branch_index ≤ s.branch_on_list.length) :
    (∀ j, s.branch_index ≤ j → j < s.branch_on_list.length →
      abs (s.branch_on_list.getD j 0) ∉ s.assigned_vars →
      (∀ i, s.branch_index ≤ i → i < j →
        abs (s.branch_on_list.getD i 0) ∈ s.assigned_vars) →
      cb_decide s = (s.branch_on_list.getD j 0, { s with branch_index := j + 1 })) ∧
    ((∀ i, s.branch_index ≤ i → i < s.branch_on_list.length →
        abs (s.branch_on_list.getD i 0) ∈ s.assigned_vars) →
      cb_decide s = (0, { s with branch_index := s.branch_on_list.length })) :=
  ⟨fun j hcj hj hun hsk => cb_decide_first_unassigned s j hcj hj hun hsk,
   fun hsk => cb_decide_all_assigned s hc hsk⟩

/-- C16 on the list `[-3, 1, -2]` with variable 3 assigned before the cursor
reached it: `cb_decide()` passes over `-3`, returns `1` and leaves the cursor
at 2. -/
theorem C16_decide_skip_semantics_witness :
    (cb_decide (notify_assignment
      (set_branch_on_list (PriorityBranchingPropagator.new false) [-3, 1, -2]) [3])).1 = 1 ∧
    (cb_decide (notify_assignment
      (set_branch_on_list (PriorityBranchingPropagator.new false) [-3, 1, -2])
        [3])).2.branch_index = 2 :=
  have h := (C16_decide_skip_semantics (notify_assignment
      (set_branch_on_list (PriorityBranchingPropagator.new false) [-3, 1, -2]) [3])
      (by decide)).1 1 (by decide) (by decide) (by decide)
      (fun i h0 h1 => by
        have e : i = 0 := by omega
        subst e
        decide)
  ⟨by rw [h]; rfl, by rw [h]⟩

/-- C17: `cb_decide`, `notify_assignment` and `notify_new_decision_level` never
decrease the cursor.  Consequently, in every run of these three operations the
cursor never moves back, and the list positions of the literals returned by the
successive `cb_decide()` calls are strictly increasing, so no position is offered
twice.  (A position offered is the index of the literal returned, with the cursor
left right behind it.) -/
theorem C17_forward_only_cursor (s : PriorityBranchingPropagator) :
    s.branch_index ≤ (cb_decide s).2.branch_index ∧
    (∀ lits, s.branch_index ≤ (notify_assignment s lits).branch_index) ∧
    s.branch_index ≤ (notify_new_decision_level s).branch_index ∧
    (∀ j, cb_decide_index s = some j →
      (cb_decide s).1 = s.branch_on_list.getD j 0 ∧ (cb_decide s).2.branch_index = j + 1) ∧
    ∀ ops : List Op, forward_run ops = true →
      s.branch_index ≤ (run s ops).branch_index ∧
      (offered_positions s ops).Pairwise (· < ·) ∧
      (offered_positions s ops).Nodup := by
  refine ⟨(cb_decide_index_bounds s).1, fun _ => Nat.le_refl _, Nat.le_refl _, ?_, ?_⟩
  · intro j hj
    obtain ⟨_, _, he⟩ := cb_decide_index_some s j hj
    rw [he]
    exact ⟨rfl, rfl⟩
  · intro ops hf
    obtain ⟨h1, _, h3⟩ := offered_positions_increasing ops s hf
    exact ⟨h1, h3, h3.imp (fun h => Nat.ne_of_lt h)⟩

/-- C17 on a forward run over `[4, -3, 1, -2]` with variable 3 assigned on the
way: the positions offered are 0, 2 and 3. -/
theorem C17_forward_only_cursor_witness :
    forward_run [.decide, .new_level, .assign [4, 3], .decide, .new_level, .decide,
      .decide] = true ∧
    offered_positions (set_branch_on_list (PriorityBranchingPropagator.new false)
      [4, -3, 1, -2]) [.decide, .new_level, .assign [4, 3], .decide, .new_level, .decide,
      .decide] = [0, 2, 3] ∧
    (offered_positions (set_branch_on_list (PriorityBranchingPropagator.new false)
      [4, -3, 1, -2]) [.decide, .new_level, .assign [4, 3], .decide, .new_level, .decide,
      .decide]).Pairwise (· < ·) :=
  ⟨by decide, by decide,
   ((C17_forward_only_cursor (set_branch_on_list (PriorityBranchingPropagator.new false)
      [4, -3, 1, -2])).2.2.2.2
      [.decide, .new_level, .assign [4, 3], .decide, .new_level, .decide, .decide]
      (by decide)).2.1⟩

/-! ## Assignment notification, round trip and counts -/

/-- The assigned set after `notify_assignment(lits)` is the old set united with the
variables of `lits`. -/
theorem notify_assignment_assigned_vars (s : PriorityBranchingPropagator) (lits : List Int) :
    (notify_assignment s lits).assigned_vars = s.assigned_vars ∪ (lits.map abs).toFinset := by
  ext v
  rw [mem_notify_assignment]
  simp only [Finset.mem_union, List.mem_toFinset, List.mem_map]

/-- C18: for every state and every list of literals, calling
`notify_assignment(lits)` twice leaves the object in the same state as calling it
once; the assigned set afterwards is the old set united with `{ |l| : l ∈ lits }`,
and the list, the cursor and the checkpoint stack are unchanged. -/
theorem C18_notify_assignment_idempotent (s : PriorityBranchingPropagator)
    (lits : List Int) :
    notify_assignment (notify_assignment s lits) lits = notify_assignment s lits ∧
    (notify_assignment s lits).assigned_vars = s.assigned_vars ∪ (lits.map abs).toFinset ∧
    (notify_assignment s lits).branch_on_list = s.branch_on_list ∧
    (notify_assignment s lits).branch_index = s.branch_index ∧
    (notify_assignment s lits).decision_stack = s.decision_stack := by
  refine ⟨?_, notify_assignment_assigned_vars s lits, rfl, rfl, rfl⟩
  have key : (notify_assignment (notify_assignment s lits) lits).assigned_vars =
      (notify_assignment s lits).assigned_vars := by
    rw [notify_assignment_assigned_vars (notify_assignment s lits) lits,
      notify_assignment_assigned_vars s lits, Finset.union_assoc, Finset.union_self]
  have hfr : ∀ t : PriorityBranchingPropagator,
      notify_assignment t lits =
        { t with assigned_vars := (notify_assignment t lits).assigned_vars } := fun _ => rfl
  rw [hfr (notify_assignment s lits), key]

/-- C19 fails as stated: after a load of `"1\n2\n"`, `1` is decided and level 1
entered; after `clear_branch_on_list` and a second load of the same text the list
is `[1, 2]` again and the cursor is 0, but the checkpoint stack is still `[1]`. -/
theorem C19_counterexample :
    (load_branch_list_from_file (PriorityBranchingPropagator.new false)
      (some "1\n2\n".toList)).ok = true ∧
    (run (PriorityBranchingPropagator.new false)
      [.load (some "1\n2\n".toList), .decide, .new_level, .clear,
        .load (some "1\n2\n".toList)]).branch_on_list = [1, 2] ∧
    (run (PriorityBranchingPropagator.new false)
      [.load (some "1\n2\n".toList), .decide, .new_level, .clear,
        .load (some "1\n2\n".toList)]).decision_stack = [1] ∧
    ¬ ((run (PriorityBranchingPropagator.new false)
      [.load (some "1\n2\n".toList), .decide, .new_level, .clear,
        .load (some "1\n2\n".toList)]).decision_stack = []) := by
  decide

/-- C19 (amended): for every prior state, every source text and every sequence of
operations performed after the first load, calling `clear_branch_on_list` and then
loading the same source again gives the same result and a list equal to the one
of the first load, with the cursor 0 and the assigned set empty; the checkpoint
stack is as the operations left it.  It is empty when it was empty before the
first load and the operations are well nested and end at decision depth 0. -/
theorem C19_load_clear_load (s : PriorityBranchingPropagator) (text : List Char)
    (ops : List Op) :
    (load_branch_list_from_file (clear_branch_on_list
      (run (load_branch_list_from_file s (some text)).state ops)) (some text)).ok
      = (load_branch_list_from_file s (some text)).ok ∧
    (load_branch_list_from_file (clear_branch_on_list
      (run (load_branch_list_from_file s (some text)).state ops))
        (some text)).state.branch_on_list
      = (load_branch_list_from_file s (some text)).state.branch_on_list ∧
    (load_branch_list_from_file (clear_branch_on_list
      (run (load_branch_list_from_file s (some text)).state ops))
        (some text)).state.branch_index = 0 ∧
    (load_branch_list_from_file (clear_branch_on_list
      (run (load_branch_list_from_file s (some text)).state ops))
        (some text)).state.assigned_vars = ∅ ∧
    (load_branch_list_from_file (clear_branch_on_list
      (run (load_branch_list_from_file s (some text)).state ops))
        (some text)).state.decision_stack
      = (run (load_branch_list_from_file s (some text)).state ops).decision_stack ∧
    (s.decision_stack = [] → well_nested 0 ops = true → host_depth 0 ops = 0 →
      (load_branch_list_from_file (clear_branch_on_list
        (run (load_branch_list_from_file s (some text)).state ops))
          (some text)).state.decision_stack = []) := by
  refine ⟨rfl, rfl, rfl, rfl, rfl, ?_⟩
  intro hs hw hd
  show (run (load_branch_list_from_file s (some text)).state ops).decision_stack = []
  have hlen := run_decision_stack_length ops 0 (load_branch_list_from_file s (some text)).state
    (by show s.decision_stack.length = 0; rw [hs]; rfl) hw
  rw [hd] at hlen
  exact List.length_eq_zero.mp hlen

/-- C19 (amended) on a search over the list loaded from `"1\n2\n"` that goes two
levels deep and comes back to the root before the list is cleared and reloaded. -/
theorem C19_load_clear_load_witness :
    ((PriorityBranchingPropagator.new false).decision_stack = [] ∧
     well_nested 0 [.decide, .new_level, .assign [1], .decide, .new_level,
       .backtrack 0] = true ∧
     host_depth 0 [.decide, .new_level, .assign [1], .decide, .new_level,
       .backtrack 0] = 0) ∧
    (load_branch_list_from_file (clear_branch_on_list
      (run (load_branch_list_from_file (PriorityBranchingPropagator.new false)
        (some "1\n2\n".toList)).state
        [.decide, .new_level, .assign [1], .decide, .new_level, .backtrack 0]))
      (some "1\n2\n".toList)).state.decision_stack = [] :=
  ⟨by decide,
   (C19_load_clear_load (PriorityBranchingPropagator.new false) "1\n2\n".toList
      [.decide, .new_level, .assign [1], .decide, .new_level, .backtrack 0]).2.2.2.2.2
      (by decide) (by decide) (by decide)⟩

/-- C20 fails as stated: `[1]` is installed, `1` decided, two levels entered, the
list cleared and `notify_backtrack(1)` called (a well-nested sequence); the cursor
is then 1 on an empty list, so the processed count is 1, the remaining count 0,
and their sum is not the length 0 of the list. -/
theorem C20_counterexample :
    well_nested 0 [.set_list [1], .decide, .new_level, .new_level, .clear, .backtrack 1]
      = true ∧
    get_processed_count (run (PriorityBranchingPropagator.new false)
      [.set_list [1], .decide, .new_level, .new_level, .clear, .backtrack 1]) = 1 ∧
    get_remaining_count (run (PriorityBranchingPropagator.new false)
      [.set_list [1], .decide, .new_level, .new_level, .clear, .backtrack 1]) = 0 ∧
    ¬ (get_processed_count (run (PriorityBranchingPropagator.new false)
        [.set_list [1], .decide, .new_level, .new_level, .clear, .backtrack 1]) +
      get_remaining_count (run (PriorityBranchingPropagator.new false)
        [.set_list [1], .decide, .new_level, .new_level, .clear, .backtrack 1]) =
      (run (PriorityBranchingPropagator.new false)
        [.set_list [1], .decide, .new_level, .new_level, .clear,
          .backtrack 1]).branch_on_list.length) := by
  decide

/-- C20 (amended): in every state, `get_processed_count()` is the cursor and
`get_remaining_count()` is the length minus the cursor, 0 when the cursor is
beyond the end.  In every state reachable from a freshly constructed module by a
well-nested sequence of public operations in which the list is loaded, set or
cleared only while the decision depth is 0, the two counts add up to the length
of the list. -/
theorem C20_processed_plus_remaining (verbose : Bool) (ops : List Op) :
    (∀ s : PriorityBranchingPropagator,
      get_processed_count s = s.branch_index ∧
      get_remaining_count s = s.branch_on_list.length - s.branch_index) ∧
    (well_nested 0 ops = true → reload_only_at_root 0 ops = true →
      get_processed_count (run (PriorityBranchingPropagator.new verbose) ops) +
        get_remaining_count (run (PriorityBranchingPropagator.new verbose) ops) =
      (run (PriorityBranchingPropagator.new verbose) ops).branch_on_list.length) := by
  have hall : ∀ s : PriorityBranchingPropagator,
      get_processed_count s = s.branch_index ∧
      get_remaining_count s = s.branch_on_list.length - s.branch_index := by
    intro s
    refine ⟨rfl, ?_⟩
    unfold get_remaining_count
    split <;> omega
  refine ⟨hall, ?_⟩
  intro hw hr
  have hb := run_cursor_bound ops 0 (PriorityBranchingPropagator.new verbose) rfl
    (Nat.le_refl _) (by intro x hx; simp [PriorityBranchingPropagator.new] at hx) hw hr
  rw [(hall _).1, (hall _).2]
  omega

/-- C20 (amended) on a search that loads `[5, 1]`, decides once and enters a
level: one entry processed, one remaining. -/
theorem C20_processed_plus_remaining_witness :
    (well_nested 0 [.load (some "5\n1\n".toList), .decide, .new_level] = true ∧
     reload_only_at_root 0 [.load (some "5\n1\n".toList), .decide, .new_level] = true) ∧
    get_processed_count (run (PriorityBranchingPropagator.new false)
      [.load (some "5\n1\n".toList), .decide, .new_level]) +
    get_remaining_count (run (PriorityBranchingPropagator.new false)
      [.load (some "5\n1\n".toList), .decide, .new_level]) =
    (run (PriorityBranchingPropagator.new false)
      [.load (some "5\n1\n".toList), .decide, .new_level]).branch_on_list.length :=
  ⟨by decide,
   (C20_processed_plus_remaining false [.load (some "5\n1\n".toList), .decide, .new_level]).2
      (by decide) (by decide)⟩

/-! ## Frame of the host protocol operations -/

/-- C21: for every state, none of `notify_assignment`, `notify_new_decision_level`,
`notify_backtrack` and `cb_decide` changes the priority list.  Moreover
`notify_assignment` changes only the assigned set, `notify_new_decision_level`
changes only the checkpoint stack, `cb_decide` changes only the cursor, and
`notify_backtrack(k)` leaves the assigned set empty for every `k`, also when `k`
is at least the current depth. -/
theorem C21_host_operations_frame (s : PriorityBranchingPropagator) :
    (∀ lits : List Int, (notify_assignment s lits).branch_on_list = s.branch_on_list) ∧
    (notify_new_decision_level s).branch_on_list = s.branch_on_list ∧
    (∀ k : Nat, (notify_backtrack s k).branch_on_list = s.branch_on_list) ∧
    (cb_decide s).2.branch_on_list = s.branch_on_list ∧
    (∀ lits : List Int, notify_assignment s lits =
      { s with assigned_vars := (notify_assignment s lits).assigned_vars }) ∧
    notify_new_decision_level s =
      { s with decision_stack := (notify_new_decision_level s).decision_stack } ∧
    (cb_decide s).2 = { s with branch_index := (cb_decide s).2.branch_index } ∧
    (∀ k : Nat, (notify_backtrack s k).assigned_vars = ∅) ∧
    (∀ k : Nat, s.decision_stack.length ≤ k →
      notify_backtrack s k = { s with assigned_vars := ∅ }) := by
  refine ⟨fun _ => rfl, rfl, ?_, cb_decide_branch_on_list s, fun _ => rfl, rfl,
    cb_decide_frame s, ?_, ?_⟩
  · intro k
    unfold notify_backtrack
    simp only
    split <;> rfl
  · intro k
    unfold notify_backtrack
    simp only
    split <;> rfl
  · intro k hk
    unfold notify_backtrack
    simp only
    rw [if_neg (by omega)]

/-- C21 on a state two levels deep with variables assigned: `notify_backtrack(5)`,
a level beyond the current depth, empties the assigned set and changes nothing
else. -/
theorem C21_host_operations_frame_witness :
    (run (PriorityBranchingPropagator.new false)
      [.set_list [1, 2, 3], .decide, .new_level, .assign [1], .decide, .new_level,
        .assign [2]]).decision_stack.length ≤ 5 ∧
    notify_backtrack (run (PriorityBranchingPropagator.new false)
      [.set_list [1, 2, 3], .decide, .new_level, .assign [1], .decide, .new_level,
        .assign [2]]) 5 =
      { branch_on_list := [1, 2, 3], branch_index := 2, assigned_vars := ∅,
        decision_stack := [1, 2], verbose := false } :=
  ⟨by decide,
   ((C21_host_operations_frame (run (PriorityBranchingPropagator.new false)
      [.set_list [1, 2, 3], .decide, .new_level, .assign [1], .decide, .new_level,
        .assign [2]])).2.2.2.2.2.2.2.2 5 (by decide)).trans (by decide)⟩

/-! ## The loader agrees with the reading of the text -/

theorem is_digit_code_eq (c : Char) : is_digit_code c = isdigit c := by
  unfold is_digit_code isdigit
  have h1 : ('0' ≤ c) ↔ 48 ≤ c.toNat := by
    rw [Char.le_def]
    exact Iff.rfl
  have h2 : (c ≤ '9') ↔ c.toNat ≤ 57 := by
    rw [Char.le_def]
    exact Iff.rfl
  simp only [h1, h2]

theorem is_white_code_eq (c : Char) : is_white_code c = isspace c := by
  have key : ∀ n, c.toNat = n → c = Char.ofNat n := fun n h => by rw [← h, Char.ofNat_toNat]
  by_cases hs : isspace c = true
  · rw [hs]
    simp only [isspace, Bool.or_eq_true, decide_eq_true_eq] at hs
    rcases hs with ((((hc | hc) | hc) | hc) | hc) | hc <;> subst hc <;> decide
  · have hf : isspace c = false := by simpa using hs
    rw [hf]
    by_contra h
    have h2 : is_white_code c = true := by simpa using h
    simp only [is_white_code, Bool.or_eq_true, Bool.and_eq_true, decide_eq_true_eq] at h2
    have h3 : c.toNat = 32 ∨ c.toNat = 9 ∨ c.toNat = 10 ∨ c.toNat = 11 ∨ c.toNat = 12 ∨
        c.toNat = 13 := by omega
    rcases h3 with h | h | h | h | h | h <;>
      (rw [key _ h] at hs; exact hs (by decide))

theorem skip_white_eq (t : List Char) : skip_white t = t.dropWhile isspace := by
  induction t with
  | nil => rfl
  | cons c cs ih =>
    simp only [skip_white, List.dropWhile, is_white_code_eq]
    cases isspace c <;> simp [ih]

theorem leading_digits_eq (t : List Char) : leading_digits t = t.takeWhile isdigit := by
  induction t with
  | nil => rfl
  | cons c cs ih =>
    simp only [leading_digits, List.takeWhile, is_digit_code_eq]
    cases isdigit c <;> simp [ih]

theorem foldl_digits_eq (ds : List Char) (acc : Nat) :
    ds.foldl (fun a c => 10 * a + (c.toNat - '0'.toNat)) acc =
      acc * 10 ^ ds.length + decimal_value ds := by
  induction ds generalizing acc with
  | nil => simp [decimal_value]
  | cons c cs ih =>
    have h48 : '0'.toNat = 48 := by decide
    rw [List.foldl_cons, ih]
    simp only [decimal_value, List.length_cons, h48]
    ring

theorem digits_value_eq (ds : List Char) : digits_value ds = decimal_value ds := by
  unfold digits_value
  rw [foldl_digits_eq]
  simp

/-- The sign, digits and bounds part of `extract_int` is `signed_decimal`. -/
theorem extract_int_tail_eq (b : Bool) (ds : List Char) :
    (if ds = [] then none
     else
      if INT_MIN ≤ (if b = true then -(digits_value ds : Int) else (digits_value ds : Int)) ∧
          (if b = true then -(digits_value ds : Int) else (digits_value ds : Int)) ≤ INT_MAX
      then some (if b = true then -(digits_value ds : Int) else (digits_value ds : Int))
      else none) = signed_decimal b ds := by
  unfold signed_decimal
  rw [digits_value_eq]
  by_cases hds : ds = []
  · simp [hds]
  · simp only [hds, if_false]
    cases b with
    | true =>
      simp only [if_true]
      by_cases h : decimal_value ds ≤ 2147483648
      · have h1 : INT_MIN ≤ -(decimal_value ds : Int) ∧ -(decimal_value ds : Int) ≤ INT_MAX := by
          unfold INT_MIN INT_MAX; omega
        simp [h, h1]
      · have h1 : ¬ (INT_MIN ≤ -(decimal_value ds : Int) ∧
            -(decimal_value ds : Int) ≤ INT_MAX) := by
          unfold INT_MIN INT_MAX; omega
        simp [h, h1]
    | false =>
      simp only [Bool.false_eq_true, if_false]
      by_cases h : decimal_value ds ≤ 2147483647
      · have h1 : INT_MIN ≤ (decimal_value ds : Int) ∧ (decimal_value ds : Int) ≤ INT_MAX := by
          unfold INT_MIN INT_MAX; omega
        simp [h, h1]
      · have h1 : ¬ (INT_MIN ≤ (decimal_value ds : Int) ∧
            (decimal_value ds : Int) ≤ INT_MAX) := by
          unfold INT_MIN INT_MAX; omega
        simp [h, h1]

/-- The stream extraction reads exactly the leading integer of the text. -/
theorem extract_int_eq_leading_integer (t : List Char) :
    extract_int t = leading_integer t := by
  unfold extract_int leading_integer
  simp only
  rw [skip_white_eq]
  cases hu : t.dropWhile isspace with
  | nil =>
    simp [split_sign]
  | cons c cs =>
    by_cases hm : c = '-'
    · subst hm
      have hsg : split_sign ('-' :: cs) = (true, cs) := rfl
      simp only [hsg, if_true]
      rw [← leading_digits_eq]
      exact extract_int_tail_eq true (leading_digits cs)
    · by_cases hp : c = '+'
      · subst hp
        have hsg : split_sign ('+' :: cs) = (false, cs) := rfl
        simp only [hsg, hm, if_false, if_true]
        rw [← leading_digits_eq]
        exact extract_int_tail_eq false (leading_digits cs)
      · have hsg : split_sign (c :: cs) = (false, c :: cs) := by
          rcases split_sign_cases (c :: cs) with ⟨r, hr1, _⟩ | ⟨r, hr1, _⟩ | h3
          · simp only [List.cons.injEq] at hr1
            exact absurd hr1.1 hm
          · simp only [List.cons.injEq] at hr1
            exact absurd hr1.1 hp
          · exact h3
        simp only [hsg, hm, hp, if_false]
        rw [← leading_digits_eq]
        exact extract_int_tail_eq false (leading_digits (c :: cs))

/-- The entry of a line as the loader computes it is the entry read off the
text. -/
theorem leading_integer_entry_eq_reference (line : List Char) :
    leading_integer_entry line = reference_line_entry line := by
  unfold leading_integer_entry reference_line_entry
  rw [extract_int_eq_leading_integer]
  cases trim line with
  | nil => simp
  | cons c cs =>
    simp only [List.head?_cons, Option.some.injEq, false_or, reduceCtorEq]
    by_cases hc : c = '#' ∨ c = 'c'
    · simp [hc]
    · simp only [hc, if_false]
      cases leading_integer (c :: cs) with
      | none => rfl
      | some v => by_cases hv : v = 0 <;> simp [hv]

/-- C10 fails as stated: the line `5 x` is not a single integer in its entirety,
so the reference definition gives it no entry, but the loader reads the leading
`5` and appends it. -/
theorem C10_counterexample :
    (load_lines ["5 x".toList]).branch_on_list = [5] ∧
    ["5 x".toList].filterMap whole_line_entry = [] ∧
    ¬ ((load_lines ["5 x".toList]).branch_on_list =
        ["5 x".toList].filterMap whole_line_entry) := by
  decide

/-- C10 (amended): for every sequence of input lines (and every file text and
prior state), the list produced by the loader is, in input order, the values of
exactly those lines whose text, trimmed of blanks, tabs, CR and LF at both ends,
is not empty, does not start with `#` or `c`, and begins, after any white space
left at its start (a vertical tab or form feed and what white space follows
them), with an optional sign and at least one decimal digit denoting an integer
that fits in `int` and is not 0; whatever follows the digits is ignored.  Every
other line contributes nothing.  Every line that is in its entirety a single
non-zero integer fitting in `int` contributes that integer. -/
theorem C10_loader_reference (lines : List (List Char)) :
    (load_lines lines).branch_on_list = lines.filterMap reference_line_entry ∧
    (∀ (s : PriorityBranchingPropagator) (text : List Char),
      (load_branch_list_from_file s (some text)).state.branch_on_list =
        (getlines text).filterMap reference_line_entry) ∧
    (∀ (line : List Char) (v : Int),
      whole_line_entry line = some v → reference_line_entry line = some v) := by
  have hfun : leading_integer_entry = reference_line_entry :=
    funext leading_integer_entry_eq_reference
  have h : ∀ ls : List (List Char),
      (load_lines ls).branch_on_list = ls.filterMap reference_line_entry := by
    intro ls
    unfold load_lines
    rw [foldl_load_line_branch_on_list, hfun]
    rfl
  refine ⟨h lines, fun s text => h (getlines text), ?_⟩
  intro line v hv
  rw [← leading_integer_entry_eq_reference]
  exact leading_of_whole_line_entry line v hv

/-- C10 (amended) on the lines of the loader example followed by `5 x`, by a line
that starts with a vertical tab and a blank before `8`, by `+4abc`, by a number
too large for `int` and by `- 3`; and on the line ` -7 ` read as a whole
integer. -/
theorem C10_loader_reference_witness :
    whole_line_entry " -7 \r".toList = some (-7) ∧
    reference_line_entry " -7 \r".toList = some (-7) ∧
    reference_line_entry (Char.ofNat 11 :: " 8".toList) = some 8 ∧
    (load_lines ["# comment".toList, [], "0".toList, "foo".toList, "5".toList,
      "-7".toList, "5 x".toList, Char.ofNat 11 :: " 8".toList, "+4abc".toList,
      "2147483648".toList, "- 3".toList]).branch_on_list = [5, -7, 5, 8, 4] :=
  ⟨by decide,
   (C10_loader_reference []).2.2 " -7 \r".toList (-7) (by decide),
   by decide,
   ((C10_loader_reference ["# comment".toList, [], "0".toList, "foo".toList, "5".toList,
      "-7".toList, "5 x".toList, Char.ofNat 11 :: " 8".toList, "+4abc".toList,
      "2147483648".toList, "- 3".toList]).1).trans (by decide)⟩

end CaDiCaL
